import Mathlib

/-!
Verification of the news-feed aggregation pipeline (feed collector, content
processor, deduplicator, KV cache adapter, multi-layer cache manager) against
its natural-language specification.  The Python sources are shallowly embedded:
pure functions become Lean functions on `List Char` / `Nat` / `ℚ`, stateful
services become explicit state-passing functions, fallible operations return
`Except` or `Option`.  Machine integers are modelled as `Nat` with explicit
`% 2^32` where the source relies on 32-bit wraparound (the MD5 core).
Character classes (`\w`, `\s`) are modelled on their ASCII fragment, which is
the fragment exercised by every concrete input appearing below.
-/

namespace NewsAgg

/-! ### Character classes (ASCII fragment of Python's `\s` and `\w`) -/

/-- Python `\s` (ASCII fragment): space, tab, newline, carriage return,
vertical tab, form feed. -/
def isPySpace (c : Char) : Bool :=
  c == ' ' || c == '\t' || c == '\n' || c == '\r' || c == '\x0b' || c == '\x0c'

/-- Python `\w` (ASCII fragment): letters, digits, underscore. -/
def isPyWord (c : Char) : Bool :=
  c.isAlphanum || c == '_'

/-- ASCII lower-casing, the fragment of Python `str.lower` used here. -/
def asciiLower (c : Char) : Char :=
  if c.isUpper then Char.ofNat (c.toNat + 32) else c

def lowerChars (l : List Char) : List Char := l.map asciiLower

/-- Python `str.lstrip()` (whitespace). -/
def lstripWs (l : List Char) : List Char := l.dropWhile (fun c => isPySpace c)

/-- Python `str.rstrip()` (whitespace). -/
def rstripWs (l : List Char) : List Char :=
  (l.reverse.dropWhile (fun c => isPySpace c)).reverse

/-- Python `str.strip()` (whitespace at both ends). -/
def stripWs (l : List Char) : List Char := rstripWs (lstripWs l)

/-- Worker for `re.sub(r'\s+', ' ', s)`: the flag records whether the previous
character belonged to a whitespace run already replaced by `' '`. -/
def collapseGo : Bool → List Char → List Char
  | _, [] => []
  | prevWs, c :: cs =>
    if isPySpace c then
      if prevWs then collapseGo true cs else ' ' :: collapseGo true cs
    else
      c :: collapseGo false cs

/-- `re.sub(r'\s+', ' ', s)`: every maximal whitespace run becomes one space. -/
def collapseWs (l : List Char) : List Char := collapseGo false l

/-- `re.sub(r'[^\w\s]', '', s)`: drop every character that is neither a word
character nor whitespace. -/
def erasePunct (l : List Char) : List Char :=
  l.filter (fun c => isPyWord c || isPySpace c)

/-- Worker for Python `str.split()` (no separator): split on whitespace runs,
dropping empty fields.  `acc` is the current word, reversed. -/
def wordsGo : List Char → List Char → List (List Char)
  | acc, [] => if acc.isEmpty then [] else [acc.reverse]
  | acc, c :: cs =>
    if isPySpace c then
      if acc.isEmpty then wordsGo [] cs else acc.reverse :: wordsGo [] cs
    else
      wordsGo (c :: acc) cs

/-- Python `str.split()` with no arguments. -/
def pySplit (l : List Char) : List (List Char) := wordsGo [] l

/-- Tokenisation of `pySplit (erasePunct s)` as a single pass: whitespace
flushes the current word, punctuation is skipped, word characters accumulate.
Used to prove that hash normalisation only depends on the punctuation-erased
string. -/
def tokGo : List Char → List Char → List (List Char)
  | acc, [] => if acc.isEmpty then [] else [acc.reverse]
  | acc, c :: cs =>
    if isPySpace c then
      if acc.isEmpty then tokGo [] cs else acc.reverse :: tokGo [] cs
    else if isPyWord c then
      tokGo (c :: acc) cs
    else
      tokGo acc cs

/-- The stop-word set of `normalize_text_for_hash`. -/
def stopWords : List (List Char) :=
  ["the".data, "a".data, "an".data, "and".data, "or".data, "but".data,
   "in".data, "on".data, "at".data, "to".data, "for".data, "of".data,
   "with".data, "by".data]

/-- `[word for word in words if word not in stop_words and len(word) > 2]`. -/
def meaningfulWords (ws : List (List Char)) : List (List Char) :=
  ws.filter (fun w => !(stopWords.contains w) && decide (w.length > 2))

/-- `' '.join(words)`. -/
def joinWords (ws : List (List Char)) : List Char :=
  List.intercalate [' '] ws

/-- `hash_generator.normalize_text_for_hash`: lower-case, strip, collapse
whitespace, remove `[^\w\s]`, drop stop words and tokens of length ≤ 2,
re-join with single spaces.  Empty input short-circuits to `""`. -/
def normalize_text_for_hash (t : String) : String :=
  if t = "" then "" else
    ⟨joinWords (meaningfulWords (pySplit (erasePunct
        (collapseWs (stripWs (lowerChars t.data))))))⟩

/-! ### URL normalisation (`hash_generator.normalize_url_for_hash`) -/

/-- The string minus a final newline, if any (`$` may match just before it). -/
def sqfCore (l : List Char) : List Char :=
  if l.getLast? == some '\n' then l.dropLast else l

/-- The final newline, if any, survives the substitution. -/
def sqfTail (l : List Char) : List Char :=
  if l.getLast? == some '\n' then ['\n'] else []

/-- The segment of the core after its last newline (`.` cannot cross one). -/
def sqfLastLine (core : List Char) : List Char :=
  (core.reverse.takeWhile (fun c => decide (c ≠ '\n'))).reverse

/-- The core up to and including its last newline. -/
def sqfBefore (core : List Char) : List Char :=
  (core.reverse.dropWhile (fun c => decide (c ≠ '\n'))).reverse

/-- Remove the match (from index `i` of the last line to the end of the
core), or return the input unchanged when there is no match. -/
def sqfApply (l : List Char) : Option Nat → List Char
  | some i => sqfBefore (sqfCore l) ++ (sqfLastLine (sqfCore l)).take i ++ sqfTail l
  | none => l

/-- `re.sub(r'[?#].*$', '', s)` with Python's semantics: `.` does not match a
newline and `$` matches at the end of the string or just before a final
newline.  Hence the only possible match starts at the leftmost `?`/`#`
occurring after the last newline of the "core" (the string minus a final
newline, if any) and extends to the end of the core. -/
def subQueryFrag (l : List Char) : List Char :=
  sqfApply l ((sqfLastLine (sqfCore l)).findIdx? (fun c => c == '?' || c == '#'))

/-- Python `str.rstrip('/')`. -/
def rstripSlash (l : List Char) : List Char :=
  (l.reverse.dropWhile (fun c => c == '/')).reverse

/-- `re.sub(f'[?&]{param}=[^&]*', '', s)` for a fixed `param=` prefix `pname`
(always nonempty at every call site): scan left to right; at a `?`/`&`
immediately followed by `pname`, delete the delimiter, `pname` and the
following run of non-`&` characters, then continue after the match. -/
def subParamGo (pname : List Char) : Nat → List Char → List Char
  | 0, l => l
  | _ + 1, [] => []
  | fuel + 1, c :: rest =>
    if (c = '?' ∨ c = '&') ∧ pname ≠ [] ∧ pname.isPrefixOf rest then
      subParamGo pname fuel ((rest.drop pname.length).dropWhile (fun d => d ≠ '&'))
    else
      c :: subParamGo pname fuel rest

/-- Each recursive step of `subParamGo` consumes at least one character, so
the input's length is always enough fuel. -/
def subParam (pname : List Char) (l : List Char) : List Char :=
  subParamGo pname l.length l

/-- The tracking parameters stripped by `normalize_url_for_hash`. -/
def trackingParams : List String :=
  ["utm_source", "utm_medium", "utm_campaign", "ref", "source"]

def stripTrackingParams (l : List Char) : List Char :=
  trackingParams.foldl (fun acc p => subParam (p.data ++ ['=']) acc) l

/-- `hash_generator.normalize_url_for_hash`: strip, lower-case, cut the query
or fragment, trim trailing slashes, then strip tracking parameters.  Empty
input short-circuits to `""`. -/
def normalize_url_for_hash (u : String) : String :=
  if u = "" then "" else
    ⟨stripTrackingParams (rstripSlash (subQueryFrag (lowerChars (stripWs u.data))))⟩

/-! ### MD5 (`hashlib.md5(...).hexdigest()`)

32-bit words are `Nat` values kept below `2^32`; bitwise operations are
computed digit by digit with explicit fuel so that every step kernel-reduces.
-/

/-- Bitwise combination of the low `fuel` binary digits of two naturals. -/
def bitop32 (f : Bool → Bool → Bool) : Nat → Nat → Nat → Nat
  | 0, _, _ => 0
  | k + 1, a, b =>
    (if f (a % 2 = 1) (b % 2 = 1) then 1 else 0) + 2 * bitop32 f k (a / 2) (b / 2)

def land32 (a b : Nat) : Nat := bitop32 (fun x y => x && y) 32 a b
def lor32 (a b : Nat) : Nat := bitop32 (fun x y => x || y) 32 a b
def lxor32 (a b : Nat) : Nat := bitop32 (fun x y => x != y) 32 a b

/-- 32-bit complement (arguments are kept `< 2^32` throughout). -/
def lnot32 (a : Nat) : Nat := 4294967295 - a % 4294967296

def add32 (a b : Nat) : Nat := (a + b) % 4294967296

/-- 32-bit left rotation: the two shifted parts occupy disjoint bit ranges. -/
def rotl32 (a s : Nat) : Nat :=
  (a % 4294967296) * 2 ^ s % 4294967296 + a % 4294967296 / 2 ^ (32 - s)

/-- The MD5 sine-derived constant table `K[i] = ⌊|sin(i+1)| · 2^32⌋`. -/
def md5K : List Nat :=
  [3614090360, 3905402710, 606105819, 3250441966, 4118548399, 1200080426,
   2821735955, 4249261313, 1770035416, 2336552879, 4294925233, 2304563134,
   1804603682, 4254626195, 2792965006, 1236535329, 4129170786, 3225465664,
   643717713, 3921069994, 3593408605, 38016083, 3634488961, 3889429448,
   568446438, 3275163606, 4107603335, 1163531501, 2850285829, 4243563512,
   1735328473, 2368359562, 4294588738, 2272392833, 1839030562, 4259657740,
   2763975236, 1272893353, 4139469664, 3200236656, 681279174, 3936430074,
   3572445317, 76029189, 3654602809, 3873151461, 530742520, 3299628645,
   4096336452, 1126891415, 2878612391, 4237533241, 1700485571, 2399980690,
   4293915773, 2240044497, 1873313359, 4264355552, 2734768916, 1309151649,
   4149444226, 3174756917, 718787259, 3951481745]

/-- The MD5 per-round shift table. -/
def md5S : List Nat :=
  [7, 12, 17, 22, 7, 12, 17, 22, 7, 12, 17, 22, 7, 12, 17, 22,
   5, 9, 14, 20, 5, 9, 14, 20, 5, 9, 14, 20, 5, 9, 14, 20,
   4, 11, 16, 23, 4, 11, 16, 23, 4, 11, 16, 23, 4, 11, 16, 23,
   6, 10, 15, 21, 6, 10, 15, 21, 6, 10, 15, 21, 6, 10, 15, 21]

/-- The round function and message index of MD5 round `i`. -/
def md5FG (i b c d : Nat) : Nat × Nat :=
  if i < 16 then (lor32 (land32 b c) (land32 (lnot32 b) d), i)
  else if i < 32 then (lor32 (land32 d b) (land32 (lnot32 d) c), (5 * i + 1) % 16)
  else if i < 48 then (lxor32 b (lxor32 c d), (3 * i + 5) % 16)
  else (lxor32 c (lor32 b (lnot32 d)), 7 * i % 16)

/-- One MD5 round applied to the running state `(a, b, c, d)`. -/
def md5Round (m : List Nat) (st : Nat × Nat × Nat × Nat) (i : Nat) :
    Nat × Nat × Nat × Nat :=
  let (a, b, c, d) := st
  let (f, g) := md5FG i b c d
  let f2 := add32 (add32 (add32 f a) (md5K.getD i 0)) (m.getD g 0)
  (d, add32 b (rotl32 f2 (md5S.getD i 0)), b, c)

/-- Process one 64-byte block (given as 16 little-endian words). -/
def md5Block (st : Nat × Nat × Nat × Nat) (m : List Nat) : Nat × Nat × Nat × Nat :=
  let (a0, b0, c0, d0) := st
  let (a, b, c, d) := (List.range 64).foldl (md5Round m) st
  (add32 a0 a, add32 b0 b, add32 c0 c, add32 d0 d)

/-- Group bytes into little-endian 32-bit words (input length a multiple of 4). -/
def bytesToWords : List Nat → List Nat
  | b0 :: b1 :: b2 :: b3 :: rest =>
    (b0 + 256 * (b1 + 256 * (b2 + 256 * b3))) :: bytesToWords rest
  | _ => []

/-- Split a byte list into 64-byte blocks (input length a multiple of 64);
the fuel is always at least the number of blocks. -/
def chunk64Go : Nat → List Nat → List (List Nat)
  | 0, _ => []
  | _ + 1, [] => []
  | fuel + 1, l@(_ :: _) => l.take 64 :: chunk64Go fuel (l.drop 64)

def chunk64 (l : List Nat) : List (List Nat) := chunk64Go l.length l

/-- MD5 padding: `0x80`, zeros to 56 mod 64, then the bit length as 8
little-endian bytes (mod `2^64`). -/
def md5Pad (msg : List Nat) : List Nat :=
  msg ++ [128] ++ List.replicate ((56 + 64 - (msg.length + 1) % 64) % 64) 0 ++
    (List.range 8).map (fun i => 8 * msg.length % 18446744073709551616 / 256 ^ i % 256)

/-- The four bytes of a 32-bit word, little-endian. -/
def wordLEBytes (w : Nat) : List Nat :=
  [w % 256, w / 256 % 256, w / 65536 % 256, w / 16777216 % 256]

/-- The 16-byte MD5 digest of a byte sequence. -/
def md5Bytes (msg : List Nat) : List Nat :=
  let blocks := chunk64 (md5Pad msg)
  let st := blocks.foldl (fun st blk => md5Block st (bytesToWords blk))
    (1732584193, 4023233417, 2562383102, 271733878)
  wordLEBytes st.1 ++ wordLEBytes st.2.1 ++ wordLEBytes st.2.2.1 ++
    wordLEBytes st.2.2.2

/-- Lower-case hexadecimal digit. -/
def hexDigit (n : Nat) : Char :=
  if n < 10 then Char.ofNat (48 + n) else Char.ofNat (87 + n)

def byteToHex (b : Nat) : List Char := [hexDigit (b / 16 % 16), hexDigit (b % 16)]

/-- `hashlib.md5(bytes).hexdigest()`: 32 lower-case hex characters. -/
def md5Hex (msg : List Nat) : String :=
  ⟨(md5Bytes msg).flatMap byteToHex⟩

/-- UTF-8 encoding of one code point (`str.encode('utf-8')`, per character). -/
def utf8EncodeChar (c : Char) : List Nat :=
  let n := c.toNat
  if n < 128 then [n]
  else if n < 2048 then [192 + n / 64, 128 + n % 64]
  else if n < 65536 then [224 + n / 4096, 128 + n / 64 % 64, 128 + n % 64]
  else [240 + n / 262144, 128 + n / 4096 % 64, 128 + n / 64 % 64, 128 + n % 64]

/-- `str.encode('utf-8')` as a byte list. -/
def utf8Bytes (s : String) : List Nat := s.data.flatMap utf8EncodeChar

/-- `hash_generator.generate_content_hash`: MD5 of
`normalize_text_for_hash(title) ++ "||" ++ normalize_url_for_hash(url)`.
(The optional `content` argument of the Python function is ignored by its
body and is therefore omitted.) -/
def generate_content_hash (title url : String) : String :=
  md5Hex (utf8Bytes (normalize_text_for_hash title ++ "||" ++ normalize_url_for_hash url))

/-- `RSSCollector._generate_content_hash`, the fingerprint computed at ingest:
MD5 of `title.strip().lower() + url.strip()` — no URL canonicalisation and no
punctuation handling. -/
def rss_generate_content_hash (title url : String) : String :=
  md5Hex (utf8Bytes ⟨lowerChars (stripWs title.data) ++ stripWs url.data⟩)

/-! ### The Article row (`app.models.article.Article`)

Only the columns the verified claims touch are carried.  Time stamps are
abstract instants (`Nat`); `published_hours_ago` is the value
`(utcnow() - published_at).total_seconds() / 3600` that the quality scorer
derives, carried directly as a rational. -/

structure ArticleR where
  id : Nat
  content_hash : String
  title : String
  content : Option String
  summary : Option String
  url : String
  source_name : String
  source_reliability : Option ℚ
  primary_topic : Option String
  countries_mentioned : List String
  word_count : Nat
  reading_time_minutes : Nat
  published_hours_ago : Option ℚ
  discovered_at : Nat
  processed_at : Option Nat
  content_processed : Bool
  quality_score : Option ℚ
  importance_level : String
  deriving Repr, DecidableEq

/-- `Article.__init__`: when the kwargs carry a truthy `word_count`, the
constructor overwrites `reading_time_minutes` with
`max(1, word_count // 200)` (floor division); otherwise the passed value is
kept. -/
def articleInitReadingTime (wordCount : Option Nat) (passed : Nat) : Nat :=
  match wordCount with
  | some wc => if wc ≠ 0 then max 1 (wc / 200) else passed
  | none => passed

/-! ### Circuit breaker (`SourceCircuitBreaker`) and `collect_from_all_sources`

`failure_counts` is read with `.get(source_id, 0)`, so it is a total map with
default 0; membership in `disabled_until` is significant, so it is an
`Option`-valued map.  Times are seconds. -/

structure CBState where
  failureCounts : Nat → Nat
  disabledUntil : Nat → Option Nat

def CBState.initial : CBState := ⟨fun _ => 0, fun _ => none⟩

/-- `SourceCircuitBreaker.should_skip_source`: returns whether to skip and the
(possibly mutated) state — reaching the deadline deletes the entry and resets
the failure count. -/
def shouldSkipSource (st : CBState) (sourceId now : Nat) : Bool × CBState :=
  match st.disabledUntil sourceId with
  | some t =>
    if now < t then (true, st)
    else
      (false,
       ⟨fun i => if i = sourceId then 0 else st.failureCounts i,
        fun i => if i = sourceId then none else st.disabledUntil i⟩)
  | none => (false, st)

/-- `SourceCircuitBreaker.record_failure`: bump the count; at ≥ 5 disable the
source for 3600 seconds. -/
def recordFailure (st : CBState) (sourceId now : Nat) : CBState :=
  let n := st.failureCounts sourceId + 1
  ⟨fun i => if i = sourceId then n else st.failureCounts i,
   if n ≥ 5 then
     fun i => if i = sourceId then some (now + 3600) else st.disabledUntil i
   else st.disabledUntil⟩

/-- `SourceCircuitBreaker.record_success`: reset the count and delete any
disable entry. -/
def recordSuccess (st : CBState) (sourceId : Nat) : CBState :=
  ⟨fun i => if i = sourceId then 0 else st.failureCounts i,
   fun i => if i = sourceId then none else st.disabledUntil i⟩

/-- Outcome of one source's collection task inside a `collect_all` run:
either the task raised, or it returned a result dict with a number of
collected articles. -/
inductive RunOutcome where
  | raised
  | completed (articlesCollected : Nat)
  deriving Repr, DecidableEq

/-- The per-source slice of `collect_from_all_sources` (lines 136–168): the
source is first filtered through `should_skip_source`; if it ran, an
exception result records a failure and a result with ≥ 1 article records a
success (0-article results leave the breaker alone).  Returns whether the
source was attempted and the new breaker state. -/
def collectAllStep (st : CBState) (sourceId now : Nat) (outcome : RunOutcome) :
    Bool × CBState :=
  let (skip, st1) := shouldSkipSource st sourceId now
  if skip then (false, st1)
  else
    match outcome with
    | .raised => (true, recordFailure st1 sourceId now)
    | .completed n => (true, if n > 0 then recordSuccess st1 sourceId else st1)

/-! ### Content processor control flow
(`ContentProcessor._process_article_batch` / `_enhance_article_metadata`)

Each enhancement step is a function that either returns (whether it changed
the row, and the updated row) or raises. -/

/-- One enhancement step: `Except` models a raised exception. -/
def EnhStep : Type := ArticleR → Except String (Bool × ArticleR)

/-- `_enhance_article_metadata`: the steps run sequentially inside a single
`try`; the first exception is logged and the accumulated `enhanced` flag and
the row as mutated so far are kept — the exception never escapes. -/
def enhanceArticleMetadata : List EnhStep → ArticleR → Bool → Bool × ArticleR
  | [], a, enhanced => (enhanced, a)
  | step :: rest, a, enhanced =>
    match step a with
    | .error _ => (enhanced, a)
    | .ok (b, a') => enhanceArticleMetadata rest a' (enhanced || b)

/-- The hash-recompute section of the per-article loop body: replace the
stored fingerprint when it differs from the freshly generated one. -/
def updateHashPhase (a : ArticleR) : ArticleR :=
  let newHash := generate_content_hash a.title a.url
  if a.content_hash ≠ newHash then { a with content_hash := newHash } else a

/-- The body of `_process_article_batch` for one article: re-fetching the row
(`scalar_one`) may raise — that exception is caught by the per-article
`except`, which skips the article (`continue`) leaving it unchanged.  If the
fetch succeeds, the hash is updated, the enhancement steps run (swallowing
their own failures), and the row is unconditionally marked
`content_processed = True` with a processing timestamp. -/
def processBatchArticle (fetched : Except String ArticleR) (steps : List EnhStep)
    (now : Nat) (a : ArticleR) : ArticleR :=
  match fetched with
  | .error _ => a
  | .ok fresh =>
    let fresh1 := updateHashPhase fresh
    let a2 := (enhanceArticleMetadata steps fresh1 false).2
    { a2 with content_processed := true, processed_at := some now }

/-! ### Quality score (`ContentProcessor._calculate_quality_score`)

Python floats are modelled as rationals; every arithmetic step here is exact
in binary floating point for the inputs of interest. -/

/-- The score before clamping, one addend per section of the source. -/
def qualityScoreRaw (a : ArticleR) : ℚ :=
  (match a.content with
   | some ct =>
     if ct ≠ "" then
       if ct.length ≥ 1000 then 30
       else if ct.length ≥ 500 then 20
       else if ct.length ≥ 200 then 10
       else 0
     else 0
   | none => 0) +
  ((match a.source_reliability with
    | some r => if r = 0 then 50 else r
    | none => 50) / 100 * 25) +
  (if a.title ≠ "" then
     if 30 ≤ a.title.length ∧ a.title.length ≤ 100 then 15
     else if 20 ≤ a.title.length ∧ a.title.length ≤ 120 then 10
     else if a.title.length ≥ 10 then 5
     else 0
   else 0) +
  (match a.published_hours_ago with
   | some h => if h ≤ 1 then 15 else if h ≤ 6 then 10 else if h ≤ 24 then 5 else 0
   | none => 0) +
  (match a.primary_topic with
   | some t => if t ≠ "general" then 10 else 5
   | none => 0) +
  (if a.countries_mentioned.length > 0 then 5 else 0)

/-- `final_score = min(100.0, score)`. -/
def qualityScoreValue (a : ArticleR) : ℚ := min 100 (qualityScoreRaw a)

/-- The write-back rule: the score is stored only when it differs from the
current value (`article.quality_score or 0`) by more than 1; the returned
flag is the step's "enhanced" result. -/
def calculateQualityScoreStep (a : ArticleR) : ArticleR × Bool :=
  let finalScore := qualityScoreValue a
  let stored := (a.quality_score).getD 0
  if |finalScore - stored| > 1 then
    ({ a with quality_score := some finalScore }, true)
  else (a, false)

/-! ### KV cache adapter (`app.utils.redis_client.RedisClient`)

The external key-value engine is a record of operations, each of which may
raise (`Except.error`).  The adapter wraps each call in `try/except` and
returns the operation's neutral value on error.  JSON payloads are an
abstract type `J` with explicit `dumps`/`loads`. -/

structure KVEngine (J : Type) where
  getOp : String → Except String (Option String)
  setOp : String → String → Option Nat → Except String Bool
  setexOp : String → Nat → String → Except String Bool
  deleteOp : List String → Except String Nat
  existsOp : String → Except String Nat
  expireOp : String → Nat → Except String Bool
  ttlOp : String → Except String Int
  lpushOp : String → List String → Except String Nat
  rpushOp : String → List String → Except String Nat
  lpopOp : String → Except String (Option String)
  lrangeOp : String → Int → Int → Except String (List String)
  saddOp : String → List String → Except String Nat
  smembersOp : String → Except String (List String)
  hsetOp : String → String → String → Except String Nat
  hgetOp : String → String → Except String (Option String)
  hgetallOp : String → Except String (List (String × String))
  keysOp : String → Except String (List String)

variable {J : Type}

/-- `RedisClient.get`. -/
def rcGet (e : KVEngine J) (k : String) : Option String :=
  match e.getOp k with | .ok v => v | .error _ => none

/-- `RedisClient.set`. -/
def rcSet (e : KVEngine J) (k v : String) (ex : Option Nat) : Bool :=
  match e.setOp k v ex with | .ok b => b | .error _ => false

/-- `RedisClient.setex`. -/
def rcSetex (e : KVEngine J) (k : String) (t : Nat) (v : String) : Bool :=
  match e.setexOp k t v with | .ok b => b | .error _ => false

/-- `RedisClient.delete`. -/
def rcDelete (e : KVEngine J) (ks : List String) : Nat :=
  match e.deleteOp ks with | .ok n => n | .error _ => 0

/-- `RedisClient.exists` (`bool(int)`). -/
def rcExists (e : KVEngine J) (k : String) : Bool :=
  match e.existsOp k with | .ok n => n ≠ 0 | .error _ => false

/-- `RedisClient.expire`. -/
def rcExpire (e : KVEngine J) (k : String) (t : Nat) : Bool :=
  match e.expireOp k t with | .ok b => b | .error _ => false

/-- `RedisClient.ttl` (error neutral value is `-1`). -/
def rcTtl (e : KVEngine J) (k : String) : Int :=
  match e.ttlOp k with | .ok n => n | .error _ => -1

/-- `RedisClient.set_json`: serialise then `self.set`. -/
def rcSetJson (dumps : J → String) (e : KVEngine J) (k : String) (d : J)
    (ex : Option Nat) : Bool :=
  rcSet e k (dumps d) ex

/-- `RedisClient.get_json`: `self.get`, then parse; a falsy string or a parse
failure yields `None`. -/
def rcGetJson (loads : String → Except String J) (e : KVEngine J) (k : String) :
    Option J :=
  match rcGet e k with
  | some s =>
    if s ≠ "" then match loads s with | .ok d => some d | .error _ => none
    else none
  | none => none

/-- `RedisClient.lpush`. -/
def rcLpush (e : KVEngine J) (k : String) (vs : List String) : Nat :=
  match e.lpushOp k vs with | .ok n => n | .error _ => 0

/-- `RedisClient.rpush`. -/
def rcRpush (e : KVEngine J) (k : String) (vs : List String) : Nat :=
  match e.rpushOp k vs with | .ok n => n | .error _ => 0

/-- `RedisClient.lpop`. -/
def rcLpop (e : KVEngine J) (k : String) : Option String :=
  match e.lpopOp k with | .ok v => v | .error _ => none

/-- `RedisClient.lrange`. -/
def rcLrange (e : KVEngine J) (k : String) (start fin : Int) : List String :=
  match e.lrangeOp k start fin with | .ok l => l | .error _ => []

/-- `RedisClient.sadd`. -/
def rcSadd (e : KVEngine J) (k : String) (vs : List String) : Nat :=
  match e.saddOp k vs with | .ok n => n | .error _ => 0

/-- `RedisClient.smembers`. -/
def rcSmembers (e : KVEngine J) (k : String) : List String :=
  match e.smembersOp k with | .ok l => l | .error _ => []

/-- `RedisClient.hset`. -/
def rcHset (e : KVEngine J) (k f v : String) : Nat :=
  match e.hsetOp k f v with | .ok n => n | .error _ => 0

/-- `RedisClient.hget`. -/
def rcHget (e : KVEngine J) (k f : String) : Option String :=
  match e.hgetOp k f with | .ok v => v | .error _ => none

/-- `RedisClient.hgetall`. -/
def rcHgetall (e : KVEngine J) (k : String) : List (String × String) :=
  match e.hgetallOp k with | .ok l => l | .error _ => []

/-- Python `str.isdigit` (ASCII fragment) with the nonempty requirement. -/
def pyIsDigit (s : String) : Bool :=
  s.data ≠ [] && s.data.all (fun c => c.isDigit)

/-- `int(s)` for a digit string. -/
def pyParseNat (s : String) : Nat :=
  s.data.foldl (fun acc c => acc * 10 + (c.toNat - 48)) 0

/-- `RedisClient.cache_article_by_hash`. -/
def rcCacheArticleByHash (dumps : J → String) (e : KVEngine J)
    (contentHash : String) (d : J) (ttl : Nat) : Bool :=
  rcSetJson dumps e ("article:" ++ contentHash) d (some ttl)

/-- `RedisClient.get_cached_article`. -/
def rcGetCachedArticle (loads : String → Except String J) (e : KVEngine J)
    (contentHash : String) : Option J :=
  rcGetJson loads e ("article:" ++ contentHash)

/-- `RedisClient.get_articles_by_topic`: `lrange` then keep the parseable ids. -/
def rcGetArticlesByTopic (e : KVEngine J) (topic : String) : List Nat :=
  ((rcLrange e ("topic:" ++ topic ++ ":articles") 0 (-1)).filter
      (fun s => pyIsDigit s)).map pyParseNat

/-- `RedisClient.get_articles_by_recency`. -/
def rcGetArticlesByRecency (e : KVEngine J) (bucket : String) : List Nat :=
  ((rcLrange e ("recency:" ++ bucket ++ ":articles") 0 (-1)).filter
      (fun s => pyIsDigit s)).map pyParseNat

/-- `RedisClient.cache_articles_by_recency`: delete, push, expire — every
engine failure is absorbed by the wrapped operations, so the function still
returns `True`. -/
def rcCacheArticlesByRecency (e : KVEngine J) (bucket : String)
    (articleIds : List Nat) (ttl : Nat) : Bool :=
  let key := "recency:" ++ bucket ++ ":articles"
  let strs := articleIds.map (fun n => toString n)
  let _ := rcDelete e [key]
  if strs ≠ [] then
    let _ := rcLpush e key strs
    let _ := rcExpire e key ttl
    true
  else true

/-- `RedisClient.cache_source_performance`. -/
def rcCacheSourcePerformance (dumps : J → String) (e : KVEngine J)
    (sourceId : Nat) (metrics : J) (ttl : Nat) : Bool :=
  rcSetJson dumps e ("source_perf:" ++ toString sourceId) metrics (some ttl)

/-- `RedisClient.get_source_performance`. -/
def rcGetSourcePerformance (loads : String → Except String J) (e : KVEngine J)
    (sourceId : Nat) : Option J :=
  rcGetJson loads e ("source_perf:" ++ toString sourceId)

/-- `RedisClient.invalidate_topic_cache` (`bool(self.delete(key))`). -/
def rcInvalidateTopicCache (e : KVEngine J) (topic : String) : Bool :=
  rcDelete e [("topic:" ++ topic ++ ":articles")] ≠ 0

/-- `RedisClient.get_news_digest` for a current/previous hour key pair. -/
def rcGetNewsDigest (loads : String → Except String J) (e : KVEngine J)
    (digestType curHour prevHour : String) : Option J :=
  match rcGetJson loads e ("digest:" ++ digestType ++ ":" ++ curHour) with
  | some d => some d
  | none => rcGetJson loads e ("digest:" ++ digestType ++ ":" ++ prevHour)

/-- `RedisClient.get_recent_rss_stats`: the **raw** `self.client.keys(...)`
call is outside every `try/except`, so an engine error propagates to the
caller — the return type is `Except`. -/
def rcGetRecentRssStats (loads : String → Except String J) (e : KVEngine J) :
    Except String (List J) := do
  let keys ← e.keysOp "rss:stats:*"
  let sorted := keys.mergeSort (fun a b => decide (a ≤ b))
  let last24 := sorted.drop (sorted.length - 24)
  return last24.filterMap (fun k => rcGetJson loads e k)

/-- A key-value engine in total outage: every operation raises `msg`. -/
def failingEngine (J : Type) (msg : String) : KVEngine J where
  getOp := fun _ => .error msg
  setOp := fun _ _ _ => .error msg
  setexOp := fun _ _ _ => .error msg
  deleteOp := fun _ => .error msg
  existsOp := fun _ => .error msg
  expireOp := fun _ _ => .error msg
  ttlOp := fun _ => .error msg
  lpushOp := fun _ _ => .error msg
  rpushOp := fun _ _ => .error msg
  lpopOp := fun _ => .error msg
  lrangeOp := fun _ _ _ => .error msg
  saddOp := fun _ _ => .error msg
  smembersOp := fun _ => .error msg
  hsetOp := fun _ _ _ => .error msg
  hgetOp := fun _ _ => .error msg
  hgetallOp := fun _ => .error msg
  keysOp := fun _ => .error msg

/-! ### Decimal strings (`str(aid)` / `int(aid)`) -/

/-- Base-10 digits, least significant first; the fuel is always at least the
value, which suffices. -/
def natDigitsGo : Nat → Nat → List Nat
  | 0, _ => []
  | fuel + 1, n => if n = 0 then [] else n % 10 :: natDigitsGo fuel (n / 10)

/-- `str(n)` for a non-negative integer. -/
def pyStrNat (n : Nat) : String :=
  if n = 0 then "0"
  else ⟨((natDigitsGo n n).map (fun d => Char.ofNat (48 + d))).reverse⟩

/-! ### Redis list semantics (layer 3 recency cache round trip)

A pure model of the engine's list keyspace: `LPUSH k v₁ … vₙ` inserts each
value at the head in argument order, so the block ends up reversed in front
of the old list; `LRANGE k 0 -1` returns the whole list. -/

structure ListStore where
  data : String → List String

def storeDelete (st : ListStore) (k : String) : ListStore :=
  ⟨fun i => if i = k then [] else st.data i⟩

def storeLpush (st : ListStore) (k : String) (vs : List String) : ListStore :=
  ⟨fun i => if i = k then vs.reverse ++ st.data i else st.data i⟩

def storeLrangeAll (st : ListStore) (k : String) : List String := st.data k

/-- `RedisClient.cache_articles_by_recency` over the list-semantics model:
delete the key, then `lpush` all id strings (and set a TTL, not modelled —
the round trip of interest is immediate). -/
def cacheArticlesByRecencyStore (st : ListStore) (bucket : String)
    (ids : List Nat) : ListStore :=
  let key := "recency:" ++ bucket ++ ":articles"
  let strs := ids.map pyStrNat
  let st1 := storeDelete st key
  if strs ≠ [] then storeLpush st1 key strs else st1

/-- `RedisClient.get_articles_by_recency` over the list-semantics model. -/
def getArticlesByRecencyStore (st : ListStore) (bucket : String) : List Nat :=
  ((storeLrangeAll st ("recency:" ++ bucket ++ ":articles")).filter
      (fun s => pyIsDigit s)).map pyParseNat

/-- `AdvancedCacheManager.get_articles_by_recency`: a nonempty cached list is
a hit truncated to `limit`; an empty one is a miss returning `[]`. -/
def cmGetArticlesByRecency (st : ListStore) (bucket : String) (limit : Nat) :
    List Nat :=
  let cached := getArticlesByRecencyStore st bucket
  if cached ≠ [] then cached.take limit else []

/-! ### Feed fetching (`RSSCollector._fetch_rss_with_retry`, C6) -/

/-- One HTTP attempt's outcome: a response with a status code and body, a
timeout, or another exception. -/
inductive FetchResp where
  | http (status : Nat) (body : String)
  | timeout
  | exc
  deriving Repr, DecidableEq

/-- The retry loop: 200 returns the body; 403/404 return `None` immediately;
any other status falls through to the next attempt; a timeout or other
exception returns `None` on the last attempt and otherwise retries.  When the
attempts are exhausted the function returns `None`. -/
def fetchRetryGo (resp : Nat → FetchResp) : Nat → Nat → Option String
  | 0, _ => none
  | remaining + 1, idx =>
    match resp idx with
    | .http status body =>
      if status = 200 then some body
      else if status = 403 then none
      else if status = 404 then none
      else fetchRetryGo resp remaining (idx + 1)
    | .timeout => if remaining = 0 then none else fetchRetryGo resp remaining (idx + 1)
    | .exc => if remaining = 0 then none else fetchRetryGo resp remaining (idx + 1)

/-- `_fetch_rss_with_retry` with its default `max_retries = 3`. -/
def fetchRssWithRetry (resp : Nat → FetchResp) : Option String :=
  fetchRetryGo resp 3 0

/-- The Source row fields relevant to conditional requests. -/
structure NewsSourceR where
  id : Nat
  name : String
  url : String
  last_etag : Option String
  last_modified : Option String
  custom_headers : List (String × String)
  deriving Repr, DecidableEq

/-- The per-request headers built by `_fetch_rss_with_retry` (lines 190–193):
`request_headers = {}` updated with the source's `custom_headers` — the
stored `last_etag` / `last_modified` are never consulted. -/
def requestHeadersFor (s : NewsSourceR) : List (String × String) :=
  s.custom_headers

/-- What `_collect_from_source` records for the source. -/
inductive PollRecord where
  | successPoll (articles : Nat)
  | failedPoll (msg : String)
  deriving Repr, DecidableEq

/-- The fetch/parse skeleton of `_collect_from_source`: a `None` fetch result
records a failed poll; an empty entry list records a failed poll; otherwise
the poll succeeds with the number of inserted articles (extraction and
insertion abstracted as `entryCount` / `inserted`). -/
def collectFromSourceOutcome (resp : Nat → FetchResp)
    (entryCount : String → Nat) (inserted : Nat) : PollRecord :=
  match fetchRssWithRetry resp with
  | none => .failedPoll "Failed to fetch RSS feed"
  | some body =>
    if entryCount body = 0 then .failedPoll "No entries found in RSS feed"
    else .successPoll inserted

/-! ### Deduplicator (`app.services.deduplicator.ArticleDeduplicator`) -/

/-- `_select_best_article`'s scoring closure. -/
def selectBestScoreFn (a : ArticleR) : ℚ :=
  ((match a.source_reliability with | some r => r | none => 50) / 2) +
  (let cl := (match a.content with | some c => c.length | none => 0)
   if cl > 1000 then (30 : ℚ) else if cl > 500 then 20 else if cl > 200 then 10 else 0) +
  (match a.quality_score with | some q => q / 100 * 20 | none => 0)

/-- Python `max(articles, key=f)`: the first element attaining the maximum. -/
def pyMax (f : ArticleR → ℚ) : List ArticleR → Option ArticleR
  | [] => none
  | a :: rest => some (rest.foldl (fun b x => if f x > f b then x else b) a)

/-- `ORDER BY discovered_at DESC` (deterministically, by stable merge sort). -/
def sortByDiscoveredDesc (l : List ArticleR) : List ArticleR :=
  l.mergeSort (fun a b => decide (b.discovered_at ≤ a.discovered_at))

/-- `discovered_at >= cutoff_date`. -/
def inWindow (cutoff : Nat) (a : ArticleR) : Bool := cutoff ≤ a.discovered_at

/-- The `GROUP BY content_hash HAVING count > 1` query over the window. -/
def dupHashes (cutoff : Nat) (db : List ArticleR) : List String :=
  let window := db.filter (inWindow cutoff)
  ((window.map (fun a => a.content_hash)).dedup).filter
    (fun h => (window.filter (fun a => a.content_hash = h)).length > 1)

/-- `_remove_duplicates_by_hash`: select every article with the hash (the
whole table, ordered by discovery descending), keep the best, delete the
rest.  Returns the surviving rows and the number of deletions. -/
def removeDuplicatesByHash (h : String) (db : List ArticleR) :
    List ArticleR × Nat :=
  let grp := sortByDiscoveredDesc (db.filter (fun a => a.content_hash = h))
  if grp.length ≤ 1 then (db, 0)
  else
    match pyMax selectBestScoreFn grp with
    | none => (db, 0)
    | some best =>
      (db.filter (fun a => ¬(a.content_hash = h ∧ a.id ≠ best.id)),
       (grp.filter (fun a => a.id ≠ best.id)).length)

/-- `deduplicate_by_content_hash`: fold the per-hash removal over the
duplicate hash groups of the window. -/
def deduplicateByContentHash (cutoff : Nat) (db : List ArticleR) :
    List ArticleR × Nat :=
  (dupHashes cutoff db).foldl
    (fun acc h =>
      let r := removeDuplicatesByHash h acc.1
      (r.1, acc.2 + r.2))
    (db, 0)

/-- `re.sub(r'^(breaking|exclusive|update|alert):\s*', '', s)`: anchored at
position 0, first matching alternative wins, then trailing whitespace of the
match is consumed. -/
def removePrefixTagGo : List (List Char) → List Char → List Char
  | [], l => l
  | tag :: rest, l =>
    if tag.isPrefixOf l then (l.drop tag.length).dropWhile (fun c => isPySpace c)
    else removePrefixTagGo rest l

def removePrefixTag (l : List Char) : List Char :=
  removePrefixTagGo
    ["breaking:".data, "exclusive:".data, "update:".data, "alert:".data] l

/-- `re.sub(r'\s*-\s*[^-]+$', '', s)`: because `[^-]+` may not contain `-`,
only the last `-` of the string can carry a match, which then runs to the
end; it exists iff at least one character follows that `-`.  The leftmost
match start also swallows the whitespace run just before the `-`. -/
def removeSourceSuffix (l : List Char) : List Char :=
  match l.reverse.findIdx? (fun c => c == '-') with
  | some k => if k ≥ 1 then rstripWs (l.take (l.length - 1 - k)) else l
  | none => l

/-- `re.sub(r'[^\w\s]', ' ', s)`: punctuation becomes a space (unlike the
hash normaliser, which deletes it). -/
def punctToSpace (l : List Char) : List Char :=
  l.map (fun c => if isPyWord c || isPySpace c then c else ' ')

/-- `_normalize_title_for_comparison`. -/
def normalizeTitleForComparison (title : String) : Option String :=
  if title = "" ∨ title.length < 15 then none
  else
    let n1 := stripWs (lowerChars title.data)
    let n2 := removePrefixTag n1
    let n3 := removeSourceSuffix n2
    let n4 := stripWs (collapseWs (punctToSpace n3))
    if n4.length ≥ 10 then some ⟨n4⟩ else none

/-- The grouping key of `_group_by_title_similarity` (articles with a falsy
title or a falsy normalised title are left out). -/
def titleKeyOf (a : ArticleR) : Option String :=
  if a.title ≠ "" then normalizeTitleForComparison a.title else none

/-- The group keys holding potential duplicates within the window. -/
def titleDupKeys (cutoff : Nat) (db : List ArticleR) : List String :=
  let window := sortByDiscoveredDesc (db.filter (inWindow cutoff))
  ((window.filterMap titleKeyOf).dedup).filter
    (fun k => (window.filter (fun a => titleKeyOf a = some k)).length > 1)

/-- `_remove_similar_title_duplicates` for one group: the group was computed
from the strategy's initial window snapshot (`origDb`); every member whose id
differs from the best one is deleted from the current table. -/
def removeTitleGroup (cutoff : Nat) (origDb : List ArticleR) (k : String)
    (db : List ArticleR) : List ArticleR × Nat :=
  let grp := (sortByDiscoveredDesc (origDb.filter (inWindow cutoff))).filter
    (fun a => titleKeyOf a = some k)
  if grp.length ≤ 1 then (db, 0)
  else
    match pyMax selectBestScoreFn grp with
    | none => (db, 0)
    | some best =>
      (db.filter (fun a => ¬(inWindow cutoff a = true ∧ titleKeyOf a = some k ∧ a.id ≠ best.id)),
       (grp.filter (fun a => a.id ≠ best.id)).length)

/-- `deduplicate_by_title_similarity`. -/
def deduplicateByTitleSimilarity (cutoff : Nat) (db : List ArticleR) :
    List ArticleR × Nat :=
  (titleDupKeys cutoff db).foldl
    (fun acc k =>
      let r := removeTitleGroup cutoff db k acc.1
      (r.1, acc.2 + r.2))
    (db, 0)

/-- Number of rows of the table carrying a given content hash. -/
def countHash (h : String) (db : List ArticleR) : Nat :=
  (db.filter (fun a => a.content_hash = h)).length

/-- Number of rows of the window carrying a given normalised-title key. -/
def wkCount (cutoff : Nat) (k : String) (db : List ArticleR) : Nat :=
  ((db.filter (inWindow cutoff)).filter (fun a => titleKeyOf a = some k)).length

/-! ### Feed entry ingestion (`RSSCollector._process_feed_entry`, C10) -/

structure FeedEntryR where
  title : String
  link : String
  deriving Repr, DecidableEq

/-- The output of `TextCleaner.clean_rss_item` (markup parsing happens in an
external library; its result is carried as data). -/
structure CleanedItemR where
  title : Option String
  content : Option String
  word_count : Option Nat
  reading_time_minutes : Option Nat
  summary : Option String
  deriving Repr, DecidableEq

structure SourceInfoR where
  name : String
  url : String
  reliability_score : Option ℚ
  topics : List String
  deriving Repr, DecidableEq

/-- Python `needle in haystack` on strings: contiguous substring test. -/
def containsSub (n : List Char) : List Char → Bool
  | [] => n.isEmpty
  | h :: t => n.isPrefixOf (h :: t) || containsSub n t

/-- `RSSCollector._classify_primary_topic`: the source's first topic if any,
otherwise a keyword rule over `f"{title.lower()} {content.lower()}"[:500]`. -/
def classifyPrimaryTopic (topics : List String) (title content : String) :
    Option String :=
  match topics with
  | t :: _ => some t
  | [] =>
    let combined :=
      (lowerChars title.data ++ ' ' :: lowerChars content.data).take 500
    let has (kw : String) : Bool := containsSub kw.data combined
    if ["technology", "tech", "ai", "software", "startup", "app", "digital"].any has then
      some "technology"
    else if ["business", "economy", "finance", "market", "company", "stock"].any has then
      some "business"
    else if ["politics", "government", "election", "policy", "minister", "parliament"].any has then
      some "politics"
    else some "general"

/-- `RSSCollector._process_feed_entry`: a missing title or link skips the
entry; short extracted content falls back to the title; the built row always
carries `content_processed = True` (line 396). -/
def processFeedEntry (entry : FeedEntryR) (extractedContent : String)
    (source : SourceInfoR) (cleaned : CleanedItemR)
    (publishedHoursAgo : Option ℚ) (now : Nat) : Option ArticleR :=
  if entry.title = "" ∨ entry.link = "" then none
  else
    let content :=
      if extractedContent = "" ∨ (stripWs extractedContent.data).length < 20 then
        entry.title
      else extractedContent
    let wc := cleaned.word_count.getD 0
    some {
      id := 0
      content_hash := rss_generate_content_hash entry.title entry.link
      title := (cleaned.title.getD entry.title).take 500
      content := cleaned.content
      summary := cleaned.summary
      url := entry.link
      source_name := source.name
      source_reliability := source.reliability_score
      primary_topic := classifyPrimaryTopic source.topics entry.title content
      countries_mentioned := []
      word_count := wc
      reading_time_minutes :=
        articleInitReadingTime (some wc) (cleaned.reading_time_minutes.getD 1)
      published_hours_ago := publishedHoursAgo
      discovered_at := now
      processed_at := none
      content_processed := true
      quality_score := some 0
      importance_level := "regular"
    }

/-- `ContentProcessor._get_unprocessed_articles`:
`WHERE content_processed IS FALSE ORDER BY discovered_at DESC LIMIT n`. -/
def getUnprocessedArticles (db : List ArticleR) (limit : Nat) : List ArticleR :=
  (sortByDiscoveredDesc (db.filter (fun a => a.content_processed = false))).take limit

/-- The breaker state after a sequence of `collect_all` runs in which the
source's task raised, run at the given times. -/
def cbAfterRaisedRuns (sourceId : Nat) : List Nat → CBState → CBState
  | [], st => st
  | t :: ts, st => cbAfterRaisedRuns sourceId ts (collectAllStep st sourceId t .raised).2

/-- A concrete article row used to instantiate universally quantified
theorems. -/
def testArticle : ArticleR where
  id := 1
  content_hash := "abc"
  title := "Sample headline for tests"
  content := some "body text"
  summary := none
  url := "https://x.com/a"
  source_name := "src"
  source_reliability := some 90
  primary_topic := some "technology"
  countries_mentioned := []
  word_count := 100
  reading_time_minutes := 1
  published_hours_ago := some 2
  discovered_at := 10
  processed_at := none
  content_processed := false
  quality_score := some 0
  importance_level := "regular"

/-- A second row sharing `testArticle`'s content hash, discovered later. -/
def testArticleDup : ArticleR :=
  { testArticle with
    id := 2
    discovered_at := 12 }

/-- A concrete ingested row: the collector's output on a sample entry. -/
def sampleIngested : ArticleR :=
  (processFeedEntry ⟨"Sample headline", "https://x.com/a"⟩ ""
      ⟨"src", "https://x.com/feed", some 80, ["technology"]⟩
      ⟨none, none, some 100, some 1, none⟩ none 5).getD testArticle

/-! ## Supporting lemmas -/

theorem charToNat_inj {c d : Char} (h : c.toNat = d.toNat) : c = d :=
  Char.ext (UInt32.toNat.inj h)

theorem charBeq_eq (c d : Char) : (c == d) = decide (c.toNat = d.toNat) := by
  by_cases h : c = d
  · subst h; simp
  · have hn : c.toNat ≠ d.toNat := fun hn => h (charToNat_inj hn)
    simp [h, hn]

theorem toNat_ofNat_small {n : Nat} (h : n < 55296) : (Char.ofNat n).toNat = n := by
  unfold Char.ofNat
  have hv : n.isValidChar := Or.inl h
  simp [hv]
  rfl

theorem isUpper_bounds {c : Char} (h : c.isUpper = true) :
    65 ≤ c.toNat ∧ c.toNat ≤ 90 := by
  unfold Char.isUpper at h
  simp only [Bool.and_eq_true, decide_eq_true_eq] at h
  exact ⟨UInt32.le_toNat_of_le (by decide) h.1, UInt32.toNat_le_of_le (by decide) h.2⟩

theorem isPySpace_toNat (c : Char) :
    isPySpace c =
      (decide (c.toNat = 32) || decide (c.toNat = 9) || decide (c.toNat = 10) ||
       decide (c.toNat = 13) || decide (c.toNat = 11) || decide (c.toNat = 12)) := by
  unfold isPySpace
  rw [charBeq_eq, charBeq_eq, charBeq_eq, charBeq_eq, charBeq_eq, charBeq_eq]
  rfl

theorem isPySpace_asciiLower (c : Char) : isPySpace (asciiLower c) = isPySpace c := by
  unfold asciiLower
  by_cases hu : c.isUpper
  · obtain ⟨h1, h2⟩ := isUpper_bounds hu
    have hv : (Char.ofNat (c.toNat + 32)).toNat = c.toNat + 32 :=
      toNat_ofNat_small (by omega)
    simp only [hu, if_true]
    rw [isPySpace_toNat, isPySpace_toNat, hv]
    have hL : (decide (c.toNat + 32 = 32) || decide (c.toNat + 32 = 9) ||
        decide (c.toNat + 32 = 10) || decide (c.toNat + 32 = 13) ||
        decide (c.toNat + 32 = 11) || decide (c.toNat + 32 = 12)) = false := by
      simp only [Bool.or_eq_false_iff, decide_eq_false_iff_not]
      omega
    have hR : (decide (c.toNat = 32) || decide (c.toNat = 9) ||
        decide (c.toNat = 10) || decide (c.toNat = 13) ||
        decide (c.toNat = 11) || decide (c.toNat = 12)) = false := by
      simp only [Bool.or_eq_false_iff, decide_eq_false_iff_not]
      omega
    rw [hL, hR]
  · simp [hu]

/-! #### Tokenisation lemmas: `pySplit ∘ erasePunct` absorbs the whitespace
normalisation steps of `normalize_text_for_hash`. -/

theorem tokGo_cons_space {c : Char} (hs : isPySpace c = true) (acc cs) :
    tokGo acc (c :: cs) =
      if acc.isEmpty then tokGo [] cs else acc.reverse :: tokGo [] cs := by
  simp only [tokGo, hs, if_true]

theorem tokGo_cons_word {c : Char} (hs : isPySpace c = false)
    (hw : isPyWord c = true) (acc cs) :
    tokGo acc (c :: cs) = tokGo (c :: acc) cs := by
  simp only [tokGo, hs, hw, if_true, Bool.false_eq_true, if_false]

theorem tokGo_cons_punct {c : Char} (hs : isPySpace c = false)
    (hw : isPyWord c = false) (acc cs) :
    tokGo acc (c :: cs) = tokGo acc cs := by
  simp only [tokGo, hs, hw, Bool.false_eq_true, if_false]

theorem wordsGo_cons_space {c : Char} (hs : isPySpace c = true) (acc cs) :
    wordsGo acc (c :: cs) =
      if acc.isEmpty then wordsGo [] cs else acc.reverse :: wordsGo [] cs := by
  simp only [wordsGo, hs, if_true]

theorem wordsGo_cons_other {c : Char} (hs : isPySpace c = false) (acc cs) :
    wordsGo acc (c :: cs) = wordsGo (c :: acc) cs := by
  simp only [wordsGo, hs, Bool.false_eq_true, if_false]

theorem collapseGo_cons_space {c : Char} (hs : isPySpace c = true) (b cs) :
    collapseGo b (c :: cs) =
      if b then collapseGo true cs else ' ' :: collapseGo true cs := by
  simp only [collapseGo, hs, if_true]

theorem collapseGo_cons_other {c : Char} (hs : isPySpace c = false) (b cs) :
    collapseGo b (c :: cs) = c :: collapseGo false cs := by
  simp only [collapseGo, hs, Bool.false_eq_true, if_false]

theorem erasePunct_cons_keep {c : Char} (hk : (isPyWord c || isPySpace c) = true)
    (cs : List Char) : erasePunct (c :: cs) = c :: erasePunct cs := by
  simp only [erasePunct, List.filter_cons, hk, if_true]

theorem erasePunct_cons_drop {c : Char} (hk : (isPyWord c || isPySpace c) = false)
    (cs : List Char) : erasePunct (c :: cs) = erasePunct cs := by
  simp only [erasePunct, List.filter_cons, hk, Bool.false_eq_true, if_false]

/-- Splitting the punctuation-erased list is the one-pass tokenisation. -/
theorem wordsGo_erase (s : List Char) :
    ∀ acc, wordsGo acc (erasePunct s) = tokGo acc s := by
  induction s with
  | nil => intro acc; rfl
  | cons c cs ih =>
    intro acc
    by_cases hs : isPySpace c = true
    · rw [erasePunct_cons_keep (by simp [hs]), wordsGo_cons_space hs,
        tokGo_cons_space hs]
      by_cases ha : acc.isEmpty <;> simp only [ha, if_true, if_false] <;>
        rw [ih]
    · rw [Bool.not_eq_true] at hs
      by_cases hw : isPyWord c = true
      · rw [erasePunct_cons_keep (by simp [hw]), wordsGo_cons_other hs,
          tokGo_cons_word hs hw, ih]
      · rw [Bool.not_eq_true] at hw
        rw [erasePunct_cons_drop (by simp [hw, hs]), tokGo_cons_punct hs hw, ih]

/-- Collapsing whitespace runs does not change the tokens.  The second
conjunct covers the collapser's state "just after a run", which in the
tokeniser corresponds to a flushed accumulator. -/
theorem tokGo_collapseGo (s : List Char) :
    (∀ acc, tokGo acc (collapseGo false s) = tokGo acc s) ∧
    (tokGo [] (collapseGo true s) = tokGo [] s) := by
  induction s with
  | nil => exact ⟨fun _ => rfl, rfl⟩
  | cons c cs ih =>
    constructor
    · intro acc
      by_cases hs : isPySpace c = true
      · rw [collapseGo_cons_space hs, if_neg (by simp),
          tokGo_cons_space (show isPySpace ' ' = true from rfl),
          tokGo_cons_space hs]
        by_cases ha : acc.isEmpty <;> simp only [ha, if_true, if_false] <;>
          rw [ih.2]
      · rw [Bool.not_eq_true] at hs
        rw [collapseGo_cons_other hs]
        by_cases hw : isPyWord c = true
        · rw [tokGo_cons_word hs hw, tokGo_cons_word hs hw, ih.1]
        · rw [Bool.not_eq_true] at hw
          rw [tokGo_cons_punct hs hw, tokGo_cons_punct hs hw, ih.1]
    · by_cases hs : isPySpace c = true
      · rw [collapseGo_cons_space hs, if_pos rfl, tokGo_cons_space hs]
        simp only [List.isEmpty_nil, if_true]
        exact ih.2
      · rw [Bool.not_eq_true] at hs
        rw [collapseGo_cons_other hs]
        by_cases hw : isPyWord c = true
        · rw [tokGo_cons_word hs hw, tokGo_cons_word hs hw, ih.1]
        · rw [Bool.not_eq_true] at hw
          rw [tokGo_cons_punct hs hw, tokGo_cons_punct hs hw, ih.1]

/-- Leading whitespace does not change the tokens (empty accumulator). -/
theorem tokGo_dropLeading (s : List Char) :
    tokGo [] (s.dropWhile (fun c => isPySpace c)) = tokGo [] s := by
  induction s with
  | nil => rfl
  | cons c cs ih =>
    by_cases hs : isPySpace c = true
    · rw [List.dropWhile_cons_of_pos hs, ih, tokGo_cons_space hs]
      simp only [List.isEmpty_nil, if_true]
    · rw [List.dropWhile_cons_of_neg (by simp [hs])]

/-- A pure-whitespace list only flushes the accumulator. -/
theorem tokGo_allSpace (r : List Char) (hr : ∀ c ∈ r, isPySpace c) :
    ∀ acc, tokGo acc r = if acc.isEmpty then [] else [acc.reverse] := by
  induction r with
  | nil => intro acc; rfl
  | cons c cs ih =>
    intro acc
    have hs : isPySpace c := hr c (List.mem_cons_self _ _)
    have ih' := ih (fun d hd => hr d (List.mem_cons_of_mem _ hd))
    rw [tokGo_cons_space hs, ih' []]
    simp only [List.isEmpty_nil, if_true]

/-- Trailing whitespace does not change the tokens. -/
theorem tokGo_append_space (r : List Char) (hr : ∀ c ∈ r, isPySpace c) :
    ∀ (s acc : List Char), tokGo acc (s ++ r) = tokGo acc s := by
  intro s
  induction s with
  | nil =>
    intro acc
    rw [List.nil_append, tokGo_allSpace r hr acc]
    rfl
  | cons c cs ih =>
    intro acc
    show tokGo acc (c :: (cs ++ r)) = tokGo acc (c :: cs)
    by_cases hs : isPySpace c = true
    · rw [tokGo_cons_space hs, tokGo_cons_space hs]
      by_cases ha : acc.isEmpty <;> simp only [ha, if_true, if_false] <;> rw [ih]
    · rw [Bool.not_eq_true] at hs
      by_cases hw : isPyWord c = true
      · rw [tokGo_cons_word hs hw, tokGo_cons_word hs hw, ih]
      · rw [Bool.not_eq_true] at hw
        rw [tokGo_cons_punct hs hw, tokGo_cons_punct hs hw, ih]

/-- The right-strip decomposition `s = rstripWs s ++ (trailing run)`. -/
theorem rstrip_decomp (s : List Char) :
    s = rstripWs s ++ (s.reverse.takeWhile (fun c => isPySpace c)).reverse := by
  unfold rstripWs
  conv_lhs => rw [← s.reverse_reverse]
  conv_lhs =>
    rw [← List.takeWhile_append_dropWhile (fun c => isPySpace c) s.reverse]
  rw [List.reverse_append]

/-- Stripping trailing whitespace does not change the tokens. -/
theorem tokGo_rstrip (s : List Char) (acc : List Char) :
    tokGo acc (rstripWs s) = tokGo acc s := by
  conv_rhs => rw [rstrip_decomp s]
  rw [tokGo_append_space]
  intro c hc
  rw [List.mem_reverse] at hc
  exact List.mem_takeWhile_imp hc

/-- Stripping both ends does not change the tokens. -/
theorem tokGo_strip (s : List Char) : tokGo [] (stripWs s) = tokGo [] s := by
  unfold stripWs
  rw [tokGo_rstrip]
  exact tokGo_dropLeading s

/-- `normalize_text_for_hash` factors through `erasePunct ∘ lowerChars`:
the strip and whitespace-collapse steps are invisible to the final tokens. -/
theorem normalize_text_eq_toks (t : String) :
    normalize_text_for_hash t =
      ⟨joinWords (meaningfulWords (pySplit (erasePunct (lowerChars t.data))))⟩ := by
  unfold normalize_text_for_hash
  by_cases h : t = ""
  · subst h; rfl
  · simp only [h, if_false]
    have key : pySplit (erasePunct (collapseWs (stripWs (lowerChars t.data)))) =
        pySplit (erasePunct (lowerChars t.data)) := by
      unfold pySplit
      rw [wordsGo_erase, wordsGo_erase]
      unfold collapseWs
      rw [(tokGo_collapseGo _).1, tokGo_strip]
    rw [key]

/-- Two titles with the same punctuation-erased lower-casing share the hash
normalisation. -/
theorem normalize_text_congr {t₁ t₂ : String}
    (h : erasePunct (lowerChars t₁.data) = erasePunct (lowerChars t₂.data)) :
    normalize_text_for_hash t₁ = normalize_text_for_hash t₂ := by
  rw [normalize_text_eq_toks, normalize_text_eq_toks, h]

/-! #### URL-side lemmas -/

theorem isPySpace_comp_asciiLower :
    ((fun c => isPySpace c) ∘ asciiLower) = (fun c => isPySpace c) :=
  funext isPySpace_asciiLower

/-- Lower-casing commutes with left whitespace stripping. -/
theorem lstrip_lower (l : List Char) :
    lstripWs (lowerChars l) = lowerChars (lstripWs l) := by
  unfold lstripWs lowerChars
  rw [List.dropWhile_map, isPySpace_comp_asciiLower]

/-- Lower-casing commutes with right whitespace stripping. -/
theorem rstrip_lower (l : List Char) :
    rstripWs (lowerChars l) = lowerChars (rstripWs l) := by
  unfold rstripWs lowerChars
  rw [← List.map_reverse, List.dropWhile_map, isPySpace_comp_asciiLower,
    List.map_reverse]

/-- Lower-casing commutes with stripping at both ends. -/
theorem strip_lower (l : List Char) :
    stripWs (lowerChars l) = lowerChars (stripWs l) := by
  unfold stripWs
  rw [lstrip_lower, rstrip_lower]

/-- A list equal to its drop-while has a head that fails the predicate. -/
theorem dropWhile_eq_self_head {p : Char → Bool} {l : List Char} {c : Char}
    (h : l.dropWhile p = l) (hc : l.head? = some c) : p c = false := by
  cases l with
  | nil => simp at hc
  | cons d t =>
    obtain rfl : d = c := by simpa using hc
    by_cases hp : p d = true
    · rw [List.dropWhile_cons_of_pos hp] at h
      have hlen := congrArg List.length h
      have hle : (t.dropWhile p).length ≤ t.length := (List.dropWhile_sublist _).length_le
      simp only [List.length_cons] at hlen
      omega
    · exact Bool.eq_false_iff.mpr hp

/-- From `rstripWs l = l`, the last element (if any) is not whitespace. -/
theorem rstrip_eq_self_getLast {l : List Char} {c : Char}
    (h : rstripWs l = l) (hc : l.getLast? = some c) : isPySpace c = false := by
  have h' : l.reverse.dropWhile (fun x => isPySpace x) = l.reverse := by
    have := congrArg List.reverse h
    rwa [rstripWs, List.reverse_reverse] at this
  exact dropWhile_eq_self_head h' (by rwa [List.head?_reverse])

/-- A list whose last element (if any) is not whitespace is its own
right-strip. -/
theorem rstrip_eq_self_of_getLast {l : List Char}
    (hl : ∀ c, l.getLast? = some c → isPySpace c = false) : rstripWs l = l := by
  unfold rstripWs
  cases hrev : l.reverse with
  | nil =>
    rw [List.reverse_eq_nil_iff.mp hrev]
    rfl
  | cons a t =>
    have ha : isPySpace a = false := by
      apply hl
      rw [← List.head?_reverse, hrev]
      rfl
    rw [List.dropWhile_cons_of_neg (by simp [ha]), ← hrev, List.reverse_reverse]

/-- Right-stripping is a no-op on an already right-stripped list's left strip. -/
theorem rstrip_lstrip_of_rstrip {l : List Char} (h : rstripWs l = l) :
    rstripWs (lstripWs l) = lstripWs l := by
  apply rstrip_eq_self_of_getLast
  intro c hc
  have hne : lstripWs l ≠ [] := by
    intro he; rw [he] at hc; simp at hc
  obtain ⟨pre, hpre⟩ := @List.dropWhile_suffix Char l (fun c => isPySpace c)
  have hsuf : pre ++ lstripWs l = l := hpre
  have hgl : l.getLast? = some c := by
    rw [← hsuf, List.getLast?_append, hc]
    rfl
  exact rstrip_eq_self_getLast h hgl

/-- Stripping both ends of an already right-stripped list is left-stripping. -/
theorem strip_eq_lstrip_of_rstrip {l : List Char} (h : rstripWs l = l) :
    stripWs l = lstripWs l := by
  unfold stripWs
  exact rstrip_lstrip_of_rstrip h

/-- The appended tracking-parameter query string. -/
def trackingQ : List Char := "?utm_source=twitter".data

theorem lstrip_append_q (l : List Char) :
    lstripWs (l ++ trackingQ) = lstripWs l ++ trackingQ := by
  unfold lstripWs
  rw [List.dropWhile_append]
  by_cases h : (l.dropWhile (fun c => isPySpace c)).isEmpty
  · rw [if_pos h]
    rw [List.isEmpty_iff] at h
    rw [h, List.nil_append]
    rfl
  · rw [if_neg h]

theorem rstrip_append_q (l : List Char) :
    rstripWs (l ++ trackingQ) = l ++ trackingQ := by
  unfold rstripWs
  rw [List.reverse_append]
  have hq : trackingQ.reverse = 'r' :: "ettiwt=ecruos_mtu?".data := by decide
  rw [hq, List.cons_append, List.dropWhile_cons_of_neg (by decide),
    ← List.cons_append, ← hq, ← List.reverse_append, List.reverse_reverse]

theorem strip_append_q (l : List Char) :
    stripWs (l ++ trackingQ) = lstripWs l ++ trackingQ := by
  unfold stripWs
  rw [lstrip_append_q, rstrip_append_q]

theorem lower_q : lowerChars trackingQ = trackingQ := by decide

/-- The core decomposes as before-part plus last line. -/
theorem sqf_decomp (l : List Char) : sqfBefore l ++ sqfLastLine l = l := by
  unfold sqfBefore sqfLastLine
  rw [← List.reverse_append, List.takeWhile_append_dropWhile, List.reverse_reverse]

theorem sqfLastLine_append_q (m : List Char) :
    sqfLastLine (m ++ trackingQ) = sqfLastLine m ++ trackingQ := by
  unfold sqfLastLine
  rw [List.reverse_append, List.takeWhile_append,
    if_pos (by decide : (trackingQ.reverse.takeWhile (fun c => decide (c ≠ '\n'))).length = trackingQ.reverse.length),
    List.reverse_append, List.reverse_reverse]

theorem sqfBefore_append_q (m : List Char) :
    sqfBefore (m ++ trackingQ) = sqfBefore m := by
  unfold sqfBefore
  rw [List.reverse_append, List.dropWhile_append,
    if_pos (by decide : (trackingQ.reverse.dropWhile (fun c => decide (c ≠ '\n'))).isEmpty = true)]

/-- A right-stripped list does not end in a newline, so the core and tail of
the substitution are trivial. -/
theorem sqf_noNl {m : List Char} (hm : rstripWs m = m) :
    (m.getLast? == some '\n') = false := by
  cases hgl : m.getLast? with
  | none => rfl
  | some c =>
    have hcs : isPySpace c = false := rstrip_eq_self_getLast hm hgl
    have : c ≠ '\n' := by
      intro he
      subst he
      exact absurd hcs (by decide)
    simp [this]

theorem getLast_append_q (m : List Char) :
    ((m ++ trackingQ).getLast? == some '\n') = false := by
  rw [List.getLast?_append]
  have : trackingQ.getLast? = some 'r' := by decide
  rw [this]
  rfl

/-- Appending the tracking query to a right-stripped URL does not change the
result of the query/fragment cut: either the URL's last line already holds a
`?`/`#` (and the cut happens there in both cases), or the appended `?` starts
the match and exactly the query is removed. -/
theorem subQueryFrag_append_q {m : List Char} (hm : rstripWs m = m) :
    subQueryFrag (m ++ trackingQ) = subQueryFrag m := by
  have hc1 : sqfCore (m ++ trackingQ) = m ++ trackingQ := by
    unfold sqfCore; rw [getLast_append_q]; rfl
  have hc2 : sqfCore m = m := by
    unfold sqfCore; rw [sqf_noNl hm]; rfl
  have ht1 : sqfTail (m ++ trackingQ) = [] := by
    unfold sqfTail; rw [getLast_append_q]; rfl
  have ht2 : sqfTail m = [] := by
    unfold sqfTail; rw [sqf_noNl hm]; rfl
  have hq0 : trackingQ.findIdx? (fun c => c == '?' || c == '#') = some 0 := by decide
  cases hfi : (sqfLastLine m).findIdx? (fun c => c == '?' || c == '#') with
  | some i =>
    have hlt : i < (sqfLastLine m).length :=
      (List.findIdx?_eq_some_iff_findIdx_eq.mp hfi).1
    have hs1 : (sqfLastLine (sqfCore (m ++ trackingQ))).findIdx?
        (fun c => c == '?' || c == '#') = some i := by
      rw [hc1, sqfLastLine_append_q, List.findIdx?_append, hfi]
      rfl
    have hs2 : (sqfLastLine (sqfCore m)).findIdx?
        (fun c => c == '?' || c == '#') = some i := by rw [hc2, hfi]
    unfold subQueryFrag
    rw [hs1, hs2]
    show sqfBefore (sqfCore (m ++ trackingQ)) ++
        (sqfLastLine (sqfCore (m ++ trackingQ))).take i ++ sqfTail (m ++ trackingQ) =
      sqfBefore (sqfCore m) ++ (sqfLastLine (sqfCore m)).take i ++ sqfTail m
    rw [hc1, hc2, ht1, ht2, sqfLastLine_append_q, sqfBefore_append_q,
      List.take_append_of_le_length (Nat.le_of_lt hlt)]
  | none =>
    have hs1 : (sqfLastLine (sqfCore (m ++ trackingQ))).findIdx?
        (fun c => c == '?' || c == '#') = some (0 + (sqfLastLine m).length) := by
      rw [hc1, sqfLastLine_append_q, List.findIdx?_append, hfi, hq0]
      rfl
    have hs2 : (sqfLastLine (sqfCore m)).findIdx?
        (fun c => c == '?' || c == '#') = none := by rw [hc2, hfi]
    unfold subQueryFrag
    rw [hs1, hs2]
    show sqfBefore (sqfCore (m ++ trackingQ)) ++
        (sqfLastLine (sqfCore (m ++ trackingQ))).take (0 + (sqfLastLine m).length) ++
        sqfTail (m ++ trackingQ) = m
    rw [hc1, ht1, sqfLastLine_append_q, sqfBefore_append_q, Nat.zero_add,
      List.take_append_of_le_length (Nat.le_refl _), List.take_length,
      List.append_nil, sqf_decomp]

/-- A string is empty iff its character list is. -/
theorem string_eq_empty_of_data {s : String} (h : s.data = []) : s = "" := by
  cases s
  simp_all

/-- Case-equivalent URLs normalise identically. -/
theorem normalize_url_congr {u₁ u₂ : String}
    (h : lowerChars u₁.data = lowerChars u₂.data) :
    normalize_url_for_hash u₁ = normalize_url_for_hash u₂ := by
  unfold normalize_url_for_hash
  have hlen : u₁.data.length = u₂.data.length := by
    have hl := congrArg List.length h
    simpa [lowerChars] using hl
  by_cases h1 : u₁ = ""
  · have h2 : u₂ = "" := by
      apply string_eq_empty_of_data
      apply List.eq_nil_of_length_eq_zero
      rw [← hlen, h1]
      rfl
    rw [if_pos h1, if_pos h2]
  · have h2 : u₂ ≠ "" := fun he => h1 (by
      apply string_eq_empty_of_data
      apply List.eq_nil_of_length_eq_zero
      rw [hlen, he]
      rfl)
    rw [if_neg h1, if_neg h2]
    have hkey : lowerChars (stripWs u₁.data) = lowerChars (stripWs u₂.data) := by
      rw [← strip_lower, ← strip_lower, h]
    rw [hkey]

/-- Appending `?utm_source=twitter` to a URL without trailing whitespace does
not change its normalisation. -/
theorem normalize_url_tracking {u : String} (hw : rstripWs u.data = u.data) :
    normalize_url_for_hash (u ++ "?utm_source=twitter") = normalize_url_for_hash u := by
  by_cases h1 : u = ""
  · subst h1
    rfl
  · unfold normalize_url_for_hash
    have hne : (u ++ "?utm_source=twitter" : String) ≠ "" := by
      intro he
      have hl := congrArg String.data he
      rw [String.data_append, show ("" : String).data = [] from rfl] at hl
      obtain ⟨-, h2⟩ := List.append_eq_nil.mp hl
      simp at h2
    rw [if_neg h1, if_neg hne]
    have hd : (u ++ "?utm_source=twitter").data = u.data ++ trackingQ := by
      rw [String.data_append]
      rfl
    rw [hd, strip_append_q]
    have hmap : lowerChars (lstripWs u.data ++ trackingQ) =
        lowerChars (lstripWs u.data) ++ trackingQ := by
      have hq := lower_q
      unfold lowerChars at hq ⊢
      rw [List.map_append, hq]
    rw [hmap]
    have hm : rstripWs (lowerChars (lstripWs u.data)) = lowerChars (lstripWs u.data) := by
      rw [rstrip_lower, rstrip_lstrip_of_rstrip hw]
    rw [subQueryFrag_append_q hm, strip_eq_lstrip_of_rstrip hw]

/-! ## Claim C1 -/

set_option maxRecDepth 100000 in
/-- C1 (counterexample): the fingerprint computed at ingest
(`RSSCollector._generate_content_hash`, MD5 of `title.strip().lower() +
url.strip()`) is **not** unchanged by adding a tracking parameter to the URL,
nor by removing punctuation from the title, nor by flipping the case of the
URL — and even the processor-side `generate_content_hash` changes under
tracking parameters when the URL carries trailing whitespace. -/
theorem C1_fingerprint_counterexample :
    rss_generate_content_hash "Breaking: OpenAI releases GPT-6"
        "https://x.com/a?utm_source=twitter" ≠
      rss_generate_content_hash "Breaking: OpenAI releases GPT-6" "https://x.com/a" ∧
    rss_generate_content_hash "Breaking OpenAI releases GPT-6" "https://x.com/a" ≠
      rss_generate_content_hash "Breaking: OpenAI releases GPT-6" "https://x.com/a" ∧
    rss_generate_content_hash "Breaking: OpenAI releases GPT-6" "https://X.com/a" ≠
      rss_generate_content_hash "Breaking: OpenAI releases GPT-6" "https://x.com/a" ∧
    generate_content_hash "t" ("https://x.com/a " ++ "?utm_source=twitter") ≠
      generate_content_hash "t" "https://x.com/a " := by
  refine ⟨?_, ?_, ?_, ?_⟩ <;> decide

/-- C1 (amended): the *processor-side* fingerprint
(`hash_generator.generate_content_hash`) is stable exactly as specified:
titles agreeing after lower-casing and punctuation erasure (covering case
flips and punctuation reordering/removal) and case-equivalent URLs yield the
same fingerprint, and appending `?utm_source=twitter` to a URL without
trailing whitespace leaves it unchanged; the *ingest* fingerprint
(`RSSCollector._generate_content_hash`) is only stable under case/outer-
whitespace changes of the title.  Fingerprints are 32 characters. -/
theorem C1_fingerprint_normalization (t₁ t₂ u₁ u₂ : String)
    (htIngest : lowerChars (stripWs t₁.data) = lowerChars (stripWs t₂.data))
    (ht : erasePunct (lowerChars t₁.data) = erasePunct (lowerChars t₂.data))
    (hu : lowerChars u₁.data = lowerChars u₂.data)
    (hw : rstripWs u₁.data = u₁.data) :
    rss_generate_content_hash t₁ u₁ = rss_generate_content_hash t₂ u₁ ∧
    generate_content_hash t₁ u₁ = generate_content_hash t₂ u₂ ∧
    generate_content_hash t₁ (u₁ ++ "?utm_source=twitter") =
      generate_content_hash t₁ u₁ ∧
    (generate_content_hash t₁ u₁).length = 32 := by
  refine ⟨?_, ?_, ?_, ?_⟩
  · unfold rss_generate_content_hash
    rw [htIngest]
  · unfold generate_content_hash
    rw [normalize_text_congr ht, normalize_url_congr hu]
  · unfold generate_content_hash
    rw [normalize_url_tracking hw]
  · unfold generate_content_hash md5Hex
    rfl

theorem C1_fingerprint_normalization_witness :
    generate_content_hash "Breaking: OpenAI releases GPT-6" "https://x.com/a" =
      generate_content_hash "BREAKING: OPENAI RELEASES GPT-6" "HTTPS://X.com/A" ∧
    generate_content_hash "Breaking: OpenAI releases GPT-6"
        ("https://x.com/a" ++ "?utm_source=twitter") =
      generate_content_hash "Breaking: OpenAI releases GPT-6" "https://x.com/a" := by
  have h := C1_fingerprint_normalization "Breaking: OpenAI releases GPT-6"
    "BREAKING: OPENAI RELEASES GPT-6" "https://x.com/a" "HTTPS://X.com/A"
    (by decide) (by decide) (by decide) (by decide)
  exact ⟨h.2.1, h.2.2.1⟩

/-! ## Claim C2 -/

/-- C2 (counterexample): `Article.__init__` computes
`max(1, word_count // 200)` — floor division, not the ceiling the claim
states — so an article with `word_count = 401` gets `reading_time_minutes =
2`, while `max(1, ⌈401/200⌉) = 3`. -/
theorem C2_reading_time_counterexample :
    articleInitReadingTime (some 401) 1 = 2 ∧ max 1 ((401 + 199) / 200) = 3 := by
  decide

/-- C2 (amended): for every article constructed with a nonzero `word_count`,
`reading_time_minutes = max(1, word_count // 200)` (floor division); in
particular `word_count = 37` yields 1 and `word_count = 401` yields 2. -/
theorem C2_reading_time (wc passed : Nat) (h : wc ≠ 0) :
    articleInitReadingTime (some wc) passed = max 1 (wc / 200) ∧
    articleInitReadingTime (some 37) passed = 1 ∧
    articleInitReadingTime (some 401) passed = 2 := by
  refine ⟨?_, ?_, ?_⟩ <;> simp [articleInitReadingTime, h]

theorem C2_reading_time_witness :
    articleInitReadingTime (some 250) 7 = max 1 (250 / 200) :=
  (C2_reading_time 250 7 (by decide)).1

/-! ## Claim C4 -/

/-- C4 (counterexample): a failing enhancement step does **not** prevent the
article from being marked processed: `_enhance_article_metadata` swallows the
exception and `_process_article_batch` then sets `content_processed = True`
unconditionally. -/
theorem C4_processing_flag_counterexample :
    testArticle.content_processed = false ∧
    (processBatchArticle (.ok testArticle)
        [fun _ => .error "classification failed"] 100 testArticle).content_processed
      = true := by
  exact ⟨rfl, rfl⟩

/-- C4 (amended): only a failure in the per-article re-fetch/hash section is
caught by the batch loop's `except` and skips the article, leaving the row
(and in particular `content_processed`) unchanged; a failure inside any
enhancement step is caught inside `_enhance_article_metadata`, the remaining
steps are skipped, and the article is still marked `content_processed = true`
with a processing timestamp. -/
theorem C4_processing_flag (a fresh : ArticleR) (steps : List EnhStep)
    (now : Nat) (e : String) (hfetch : a.content_processed = false) :
    processBatchArticle (.error e) steps now a = a ∧
    (processBatchArticle (.error e) steps now a).content_processed = false ∧
    (processBatchArticle (.ok fresh) steps now a).content_processed = true ∧
    (processBatchArticle (.ok fresh) steps now a).processed_at = some now := by
  refine ⟨rfl, ?_, rfl, rfl⟩
  exact hfetch

theorem C4_processing_flag_witness :
    processBatchArticle (.error "db timeout") [] 100 testArticle = testArticle ∧
    (processBatchArticle (.error "db timeout") [] 100 testArticle).content_processed
      = false ∧
    (processBatchArticle (.ok testArticle) [] 100 testArticle).content_processed
      = true ∧
    (processBatchArticle (.ok testArticle) [] 100 testArticle).processed_at
      = some 100 :=
  C4_processing_flag testArticle testArticle [] 100 "db timeout" rfl

/-! ## Claim C9 -/

/-- C9 (confirmed): an article with a 1200-character body, reliability 90, a
45-character title, published 2 hours ago, a non-`general` primary topic
(`technology`) and at least one mentioned country scores
`30 + 22.5 + 15 + 10 + 10 + 5 = 92.5 ≥ 85`, and the score is written back
exactly when it differs from the stored value by more than 1. -/
theorem C9_quality_score (content title : String) (stored : ℚ)
    (countries : List String) (hc : content.length = 1200)
    (ht : title.length = 45) (hcnt : countries ≠ []) :
    qualityScoreValue { testArticle with
        content := some content,
        title := title,
        source_reliability := some 90,
        published_hours_ago := some 2,
        primary_topic := some "technology",
        countries_mentioned := countries,
        quality_score := some stored } = 185 / 2 ∧
    (185 : ℚ) / 2 ≥ 85 ∧
    ((calculateQualityScoreStep { testArticle with
        content := some content,
        title := title,
        source_reliability := some 90,
        published_hours_ago := some 2,
        primary_topic := some "technology",
        countries_mentioned := countries,
        quality_score := some stored }).2 = true
      ↔ |185 / 2 - stored| > 1) := by
  have hcne : content ≠ "" := by
    intro he
    rw [he] at hc
    simp at hc
  have htne : title ≠ "" := by
    intro he
    rw [he] at ht
    simp at ht
  have hval : qualityScoreValue { testArticle with
      content := some content,
      title := title,
      source_reliability := some 90,
      published_hours_ago := some 2,
      primary_topic := some "technology",
      countries_mentioned := countries,
      quality_score := some stored } = 185 / 2 := by
    unfold qualityScoreValue qualityScoreRaw
    simp only [hc, ht]
    norm_num [hcne, htne, hcnt]
    rw [if_neg (show ¬("technology" = "general") from by decide),
      if_pos (List.length_pos.mpr hcnt)]
    norm_num
  refine ⟨hval, by norm_num, ?_⟩
  unfold calculateQualityScoreStep
  rw [hval]
  simp only [Option.getD_some]
  by_cases hgt : |185 / 2 - stored| > (1 : ℚ)
  · rw [if_pos hgt]
    exact iff_of_true rfl hgt
  · rw [if_neg hgt]
    exact iff_of_false (by simp) hgt

theorem C9_quality_score_witness :
    qualityScoreValue { testArticle with
        content := some (String.mk (List.replicate 1200 'a')),
        title := String.mk (List.replicate 45 't'),
        source_reliability := some 90,
        published_hours_ago := some 2,
        primary_topic := some "technology",
        countries_mentioned := ["US"],
        quality_score := some 0 } = 185 / 2 ∧
    ((185 : ℚ) / 2 ≥ 85) := by
  have h := C9_quality_score (String.mk (List.replicate 1200 'a'))
    (String.mk (List.replicate 45 't')) 0 ["US"]
    (by show (List.replicate 1200 'a').length = 1200; rw [List.length_replicate])
    (by show (List.replicate 45 't').length = 45; rw [List.length_replicate])
    (by simp)
  exact ⟨h.1, h.2.1⟩

/-! ## Claim C3 -/

/-- C3 (counterexample): within one `collect_all` run a source's fetch
happens once (with at most 3 HTTP attempts), and a failing run records at
most one breaker failure — and only when the task raises.  After a run in
which the source's collection failed, the very next invocation one minute
later still attempts the source: five failures inside a single run are
impossible and a single failed run does not trip the breaker. -/
theorem C3_circuit_breaker_counterexample :
    (collectAllStep (cbAfterRaisedRuns 7 [0] CBState.initial) 7 60 .raised).1
      = true ∧
    (cbAfterRaisedRuns 7 [0] CBState.initial).failureCounts 7 = 1 := by
  constructor <;> rfl

/-- C3 (amended): one breaker failure is recorded per `collect_all` run whose
per-source task raises; after five such runs the source is disabled for 3600
seconds from the fifth failure — every invocation before that deadline skips
the source, an invocation at or after the deadline attempts it again and
resets the counter, and a completed collection with at least one article
resets the counter. -/
theorem C3_circuit_breaker (sourceId t1 t2 t3 t4 t5 t t' n : Nat)
    (o o' : RunOutcome) (st : CBState) (hlt : t < t5 + 3600)
    (hge : t5 + 3600 ≤ t') (hn : 0 < n)
    (hnd : st.disabledUntil sourceId = none) :
    (cbAfterRaisedRuns sourceId [t1, t2, t3, t4, t5] CBState.initial).failureCounts
        sourceId = 5 ∧
    (cbAfterRaisedRuns sourceId [t1, t2, t3, t4, t5] CBState.initial).disabledUntil
        sourceId = some (t5 + 3600) ∧
    (collectAllStep (cbAfterRaisedRuns sourceId [t1, t2, t3, t4, t5]
        CBState.initial) sourceId t o).1 = false ∧
    (collectAllStep (cbAfterRaisedRuns sourceId [t1, t2, t3, t4, t5]
        CBState.initial) sourceId t' o').1 = true ∧
    ((collectAllStep (cbAfterRaisedRuns sourceId [t1, t2, t3, t4, t5]
        CBState.initial) sourceId t' (.completed n)).2).failureCounts sourceId = 0 ∧
    ((collectAllStep st sourceId t (.completed n)).2).failureCounts sourceId = 0 := by
  have h5c : (cbAfterRaisedRuns sourceId [t1, t2, t3, t4, t5]
      CBState.initial).failureCounts sourceId = 5 := by
    simp [cbAfterRaisedRuns, collectAllStep, shouldSkipSource, recordFailure,
      CBState.initial]
  have h5d : (cbAfterRaisedRuns sourceId [t1, t2, t3, t4, t5]
      CBState.initial).disabledUntil sourceId = some (t5 + 3600) := by
    simp [cbAfterRaisedRuns, collectAllStep, shouldSkipSource, recordFailure,
      CBState.initial]
  refine ⟨h5c, h5d, ?_, ?_, ?_, ?_⟩
  · unfold collectAllStep shouldSkipSource
    rw [h5d]
    simp [hlt]
  · unfold collectAllStep shouldSkipSource
    rw [h5d]
    simp only [if_neg (by omega : ¬ t' < t5 + 3600)]
    cases o' <;> simp [recordFailure, recordSuccess]
  · unfold collectAllStep shouldSkipSource
    rw [h5d]
    simp only [if_neg (by omega : ¬ t' < t5 + 3600)]
    simp [recordSuccess, hn]
  · unfold collectAllStep shouldSkipSource
    rw [hnd]
    simp [recordSuccess, hn]

theorem C3_circuit_breaker_witness :
    (cbAfterRaisedRuns 7 [0, 10, 20, 30, 40] CBState.initial).failureCounts 7
      = 5 ∧
    (cbAfterRaisedRuns 7 [0, 10, 20, 30, 40] CBState.initial).disabledUntil 7
      = some 3640 ∧
    (collectAllStep (cbAfterRaisedRuns 7 [0, 10, 20, 30, 40] CBState.initial)
        7 100 .raised).1 = false ∧
    (collectAllStep (cbAfterRaisedRuns 7 [0, 10, 20, 30, 40] CBState.initial)
        7 3700 .raised).1 = true ∧
    ((collectAllStep (cbAfterRaisedRuns 7 [0, 10, 20, 30, 40] CBState.initial)
        7 3700 (.completed 2)).2).failureCounts 7 = 0 ∧
    ((collectAllStep CBState.initial 7 100 (.completed 2)).2).failureCounts 7
      = 0 := by
  have h := C3_circuit_breaker 7 0 10 20 30 40 100 3700 2 .raised .raised
    CBState.initial (by decide) (by decide) (by decide) rfl
  exact h

/-! ## Claim C6 -/

/-- C6 (counterexample): the fetch request for a source with cached
conditional headers carries no `If-None-Match`/`If-Modified-Since` (only the
source's custom headers, here empty), and a feed that answers 304 on every
attempt is recorded as a **failed** poll, not as an empty success. -/
theorem C6_conditional_get_counterexample :
    requestHeadersFor
        ⟨7, "name", "https://feed", some "etag123", some "Wed, 01 Jan 2025", []⟩
      = [] ∧
    collectFromSourceOutcome (fun _ => .http 304 "") (fun _ => 1) 0
      = .failedPoll "Failed to fetch RSS feed" := by
  exact ⟨rfl, rfl⟩

/-- C6 (amended): the request carries exactly the source's custom headers
(the cached `last_etag`/`last_modified` are never attached), and a 304
response is treated like any other non-200/403/404 status: the attempt loop
retries it and, after the third 304, `_fetch_rss_with_retry` returns `None`,
so `_collect_from_source` records a failed poll. -/
theorem C6_fetch_304 (resp : Nat → FetchResp) (s : NewsSourceR)
    (bodies : Nat → String) (entryCount : String → Nat) (inserted : Nat)
    (h304 : ∀ i, resp i = .http 304 (bodies i)) :
    requestHeadersFor s = s.custom_headers ∧
    fetchRssWithRetry resp = none ∧
    collectFromSourceOutcome resp entryCount inserted
      = .failedPoll "Failed to fetch RSS feed" := by
  have hf : fetchRssWithRetry resp = none := by
    unfold fetchRssWithRetry
    simp [fetchRetryGo, h304 0, h304 1, h304 2]
  refine ⟨rfl, hf, ?_⟩
  unfold collectFromSourceOutcome
  rw [hf]

theorem C6_fetch_304_witness :
    fetchRssWithRetry (fun _ => .http 304 "") = none ∧
    collectFromSourceOutcome (fun _ => .http 304 "") (fun _ => 5) 3
      = .failedPoll "Failed to fetch RSS feed" := by
  have h := C6_fetch_304 (fun _ => .http 304 "")
    ⟨7, "name", "https://feed", some "etag123", none, []⟩
    (fun _ => "") (fun _ => 5) 3 (fun _ => rfl)
  exact ⟨h.2.1, h.2.2⟩

/-! ## Claim C7 -/

theorem natDigitsGo_val : ∀ fuel n, n ≤ fuel →
    (natDigitsGo fuel n).foldr (fun d acc => acc * 10 + d) 0 = n := by
  intro fuel
  induction fuel with
  | zero =>
    intro n hn
    interval_cases n
    rfl
  | succ fuel ih =>
    intro n hn
    by_cases h0 : n = 0
    · subst h0; rfl
    · have hd : natDigitsGo (fuel + 1) n = n % 10 :: natDigitsGo fuel (n / 10) := by
        simp [natDigitsGo, h0]
      rw [hd, List.foldr_cons, ih (n / 10) (by
        have := Nat.div_lt_self (Nat.pos_of_ne_zero h0) (by decide : 1 < 10)
        omega)]
      have := Nat.div_add_mod n 10
      omega

theorem natDigitsGo_lt10 : ∀ fuel n d, d ∈ natDigitsGo fuel n → d < 10 := by
  intro fuel
  induction fuel with
  | zero => intro n d hd; simp [natDigitsGo] at hd
  | succ fuel ih =>
    intro n d hd
    by_cases h0 : n = 0
    · subst h0; simp [natDigitsGo] at hd
    · simp only [natDigitsGo, h0, if_neg, ite_false] at hd
      rcases List.mem_cons.mp (by simpa using hd) with h | h
      · subst h; exact Nat.mod_lt _ (by decide)
      · exact ih _ _ h

theorem digitChar_toNat {d : Nat} (hd : d < 10) :
    (Char.ofNat (48 + d)).toNat = 48 + d :=
  toNat_ofNat_small (by omega)

theorem digitChar_isDigit {d : Nat} (hd : d < 10) :
    (Char.ofNat (48 + d)).isDigit = true := by
  interval_cases d <;> decide

theorem natDigitsGo_ne_nil {n : Nat} (h0 : n ≠ 0) : natDigitsGo n n ≠ [] := by
  cases n with
  | zero => exact absurd rfl h0
  | succ m => simp [natDigitsGo]

theorem foldr_digits (ds : List Nat) (hds : ∀ d ∈ ds, d < 10) :
    (ds.map (fun d => Char.ofNat (48 + d))).foldr
        (fun c acc => acc * 10 + (c.toNat - 48)) 0 =
      ds.foldr (fun d acc => acc * 10 + d) 0 := by
  induction ds with
  | nil => rfl
  | cons d rest ih =>
    simp only [List.map_cons, List.foldr_cons]
    rw [ih (fun x hx => hds x (List.mem_cons_of_mem _ hx)),
      digitChar_toNat (hds d (List.mem_cons_self _ _))]
    omega

theorem pyParseNat_strNat (n : Nat) : pyParseNat (pyStrNat n) = n := by
  by_cases h0 : n = 0
  · subst h0; decide
  · unfold pyStrNat pyParseNat
    rw [if_neg h0]
    show (((natDigitsGo n n).map (fun d => Char.ofNat (48 + d))).reverse).foldl
      (fun acc c => acc * 10 + (c.toNat - 48)) 0 = n
    rw [List.foldl_reverse]
    rw [foldr_digits _ (fun d hd => natDigitsGo_lt10 n n d hd)]
    exact natDigitsGo_val n n (Nat.le_refl n)

theorem pyIsDigit_strNat (n : Nat) : pyIsDigit (pyStrNat n) = true := by
  by_cases h0 : n = 0
  · subst h0; decide
  · unfold pyStrNat pyIsDigit
    rw [if_neg h0]
    show ((((natDigitsGo n n).map (fun d => Char.ofNat (48 + d))).reverse ≠ []) &&
      (((natDigitsGo n n).map (fun d => Char.ofNat (48 + d))).reverse).all
        (fun c => c.isDigit)) = true
    rw [Bool.and_eq_true]
    constructor
    · simp only [ne_eq, List.reverse_eq_nil_iff, List.map_eq_nil_iff, decide_eq_true_eq]
      exact natDigitsGo_ne_nil h0
    · rw [List.all_eq_true]
      intro c hc
      rw [List.mem_reverse, List.mem_map] at hc
      obtain ⟨d, hd, rfl⟩ := hc
      exact digitChar_isDigit (natDigitsGo_lt10 n n d hd)

/-- C7 (counterexample): writing ids in discovery-descending order `[3, 2, 1]`
and reading the bucket back returns `[1, 2, 3]` — `LPUSH key v₁ … vₙ` leaves
the block reversed — and the manager-level read truncates the *reversed*
list. -/
theorem C7_recency_roundtrip_counterexample :
    getArticlesByRecencyStore
        (cacheArticlesByRecencyStore ⟨fun _ => []⟩ "1h" [3, 2, 1]) "1h"
      = [1, 2, 3] ∧
    [1, 2, 3] ≠ [3, 2, 1] ∧
    cmGetArticlesByRecency
        (cacheArticlesByRecencyStore ⟨fun _ => []⟩ "1h" [3, 2, 1]) "1h" 2
      = [1, 2] := by
  refine ⟨?_, by decide, ?_⟩ <;> decide

/-- C7 (amended): for every list of ids written to a recency bucket, a
subsequent read returns the same ids in **reversed** order (the multi-value
`LPUSH` prepends the block element by element), truncated to the requested
limit at the manager level; the set of ids is preserved, the order is not. -/
theorem C7_recency_roundtrip (st : ListStore) (bucket : String)
    (ids : List Nat) (limit : Nat) :
    getArticlesByRecencyStore (cacheArticlesByRecencyStore st bucket ids) bucket
      = ids.reverse ∧
    cmGetArticlesByRecency (cacheArticlesByRecencyStore st bucket ids) bucket limit
      = ids.reverse.take limit := by
  have hget : getArticlesByRecencyStore
      (cacheArticlesByRecencyStore st bucket ids) bucket = ids.reverse := by
    unfold getArticlesByRecencyStore cacheArticlesByRecencyStore storeLrangeAll
      storeDelete storeLpush
    by_cases he : ids.map pyStrNat ≠ []
    · rw [if_pos he]
      simp only [if_pos rfl, if_true]
      rw [List.append_nil]
      have hfil : ((ids.map pyStrNat).reverse).filter (fun s => pyIsDigit s) =
          (ids.map pyStrNat).reverse := by
        rw [List.filter_eq_self]
        intro s hs
        rw [List.mem_reverse, List.mem_map] at hs
        obtain ⟨m, _, rfl⟩ := hs
        exact pyIsDigit_strNat m
      rw [hfil, ← List.map_reverse, List.map_map]
      rw [show (pyParseNat ∘ pyStrNat) = id from funext pyParseNat_strNat]
      exact List.map_id _
    · rw [if_neg he]
      rw [not_not] at he
      have : ids = [] := by
        cases ids with
        | nil => rfl
        | cons a t => simp at he
      subst this
      simp
  refine ⟨hget, ?_⟩
  unfold cmGetArticlesByRecency
  rw [hget]
  by_cases hne : ids.reverse ≠ []
  · rw [if_pos hne]
  · rw [if_neg hne]
    rw [not_not] at hne
    rw [hne, List.take_nil]

/-! ## Claim C10 -/

/-- C10 (confirmed): every article row built by
`RSSCollector._process_feed_entry` carries `content_processed = True`
(line 396), so it can never be selected by the Content Processor's
unprocessed-articles query, which filters on `content_processed IS FALSE`. -/
theorem C10_collector_rows_processed (entry : FeedEntryR) (ec : String)
    (src : SourceInfoR) (cl : CleanedItemR) (ph : Option ℚ) (now : Nat)
    (a : ArticleR) (h : processFeedEntry entry ec src cl ph now = some a) :
    a.content_processed = true ∧
    ∀ (db : List ArticleR) (limit : Nat), a ∉ getUnprocessedArticles db limit := by
  have hflag : a.content_processed = true := by
    unfold processFeedEntry at h
    by_cases hg : entry.title = "" ∨ entry.link = ""
    · rw [if_pos hg] at h
      exact absurd h (by simp)
    · rw [if_neg hg] at h
      obtain rfl := (Option.some_inj.mp h).symm
      rfl
  refine ⟨hflag, ?_⟩
  intro db limit hmem
  have h1 : a ∈ sortByDiscoveredDesc
      (db.filter (fun x => x.content_processed = false)) :=
    List.mem_of_mem_take hmem
  have h2 : a ∈ db.filter (fun x => x.content_processed = false) :=
    ((List.mergeSort_perm _ _).mem_iff).mp h1
  have h3 := List.of_mem_filter h2
  rw [hflag] at h3
  simp at h3

theorem C10_collector_rows_processed_witness :
    sampleIngested.content_processed = true ∧
    sampleIngested ∉ getUnprocessedArticles [sampleIngested, testArticle] 10 := by
  have h := C10_collector_rows_processed ⟨"Sample headline", "https://x.com/a"⟩ ""
    ⟨"src", "https://x.com/feed", some 80, ["technology"]⟩
    ⟨none, none, some 100, some 1, none⟩ none 5 sampleIngested rfl
  exact ⟨h.1, h.2 [sampleIngested, testArticle] 10⟩

/-! ## Claim C5 -/

/-- C5 (counterexample): `get_recent_rss_stats` calls the raw engine
`keys(...)` outside every `try/except`, so an engine error propagates to the
caller instead of yielding the neutral empty list. -/
theorem C5_kv_failure_neutral_counterexample :
    @rcGetRecentRssStats Unit (fun _ => .ok ())
        (failingEngine Unit "connection refused")
      = .error "connection refused" := rfl

/-- C5 (amended): every KV adapter operation except `get_recent_rss_stats`
is failure-opaque — an engine error yields the neutral value (`none`,
`false`, `0`, `[]`, `-1` for `ttl`) — and `cache_articles_by_recency` even
reports `True` on an engine outage because the wrapped operations absorb the
errors before its own `except` can see them; `get_recent_rss_stats` alone
propagates the engine error. -/
theorem C5_kv_failure_neutral {J : Type} (e : KVEngine J) (dumps : J → String)
    (loads : String → Except String J) (k v f topic bucket ch dt ch1 ch2 : String)
    (m : String) (t ttl sid : Nat) (ex : Option Nat) (st fin : Int)
    (vs : List String) (ids : List Nat) (d : J) :
    (e.getOp k = .error m → rcGet e k = none) ∧
    (e.setOp k v ex = .error m → rcSet e k v ex = false) ∧
    (e.setexOp k t v = .error m → rcSetex e k t v = false) ∧
    (e.deleteOp vs = .error m → rcDelete e vs = 0) ∧
    (e.existsOp k = .error m → rcExists e k = false) ∧
    (e.expireOp k t = .error m → rcExpire e k t = false) ∧
    (e.ttlOp k = .error m → rcTtl e k = -1) ∧
    (e.setOp k (dumps d) ex = .error m → rcSetJson dumps e k d ex = false) ∧
    (e.getOp k = .error m → rcGetJson loads e k = none) ∧
    (e.lpushOp k vs = .error m → rcLpush e k vs = 0) ∧
    (e.rpushOp k vs = .error m → rcRpush e k vs = 0) ∧
    (e.lpopOp k = .error m → rcLpop e k = none) ∧
    (e.lrangeOp k st fin = .error m → rcLrange e k st fin = []) ∧
    (e.saddOp k vs = .error m → rcSadd e k vs = 0) ∧
    (e.smembersOp k = .error m → rcSmembers e k = []) ∧
    (e.hsetOp k f v = .error m → rcHset e k f v = 0) ∧
    (e.hgetOp k f = .error m → rcHget e k f = none) ∧
    (e.hgetallOp k = .error m → rcHgetall e k = []) ∧
    (e.getOp ("article:" ++ ch) = .error m → rcGetCachedArticle loads e ch = none) ∧
    (e.setOp ("article:" ++ ch) (dumps d) (some ttl) = .error m →
      rcCacheArticleByHash dumps e ch d ttl = false) ∧
    (e.lrangeOp ("topic:" ++ topic ++ ":articles") 0 (-1) = .error m →
      rcGetArticlesByTopic e topic = []) ∧
    (e.lrangeOp ("recency:" ++ bucket ++ ":articles") 0 (-1) = .error m →
      rcGetArticlesByRecency e bucket = []) ∧
    (rcCacheArticlesByRecency e bucket ids ttl = true) ∧
    (e.deleteOp ["topic:" ++ topic ++ ":articles"] = .error m →
      rcInvalidateTopicCache e topic = false) ∧
    (e.getOp ("source_perf:" ++ toString sid) = .error m →
      rcGetSourcePerformance loads e sid = none) ∧
    (e.getOp ("digest:" ++ dt ++ ":" ++ ch1) = .error m →
      e.getOp ("digest:" ++ dt ++ ":" ++ ch2) = .error m →
      rcGetNewsDigest loads e dt ch1 ch2 = none) := by
  refine ⟨fun h => by simp [rcGet, h], fun h => by simp [rcSet, h],
    fun h => by simp [rcSetex, h], fun h => by simp [rcDelete, h],
    fun h => by simp [rcExists, h], fun h => by simp [rcExpire, h],
    fun h => by simp [rcTtl, h], fun h => by simp [rcSetJson, rcSet, h],
    fun h => by simp [rcGetJson, rcGet, h], fun h => by simp [rcLpush, h],
    fun h => by simp [rcRpush, h], fun h => by simp [rcLpop, h],
    fun h => by simp [rcLrange, h], fun h => by simp [rcSadd, h],
    fun h => by simp [rcSmembers, h], fun h => by simp [rcHset, h],
    fun h => by simp [rcHget, h], fun h => by simp [rcHgetall, h],
    fun h => by simp [rcGetCachedArticle, rcGetJson, rcGet, h],
    fun h => by simp [rcCacheArticleByHash, rcSetJson, rcSet, h],
    fun h => by simp [rcGetArticlesByTopic, rcLrange, h],
    fun h => by simp [rcGetArticlesByRecency, rcLrange, h],
    ?_,
    fun h => by simp [rcInvalidateTopicCache, rcDelete, h],
    fun h => by simp [rcGetSourcePerformance, rcGetJson, rcGet, h],
    fun h1 h2 => by simp [rcGetNewsDigest, rcGetJson, rcGet, h1, h2]⟩
  unfold rcCacheArticlesByRecency
  by_cases he : ids.map (fun n => toString n) ≠ [] <;> simp [he]

theorem C5_kv_failure_neutral_witness :
    rcGet (failingEngine Unit "down") "k" = none ∧
    rcSet (failingEngine Unit "down") "k" "v" none = false ∧
    rcTtl (failingEngine Unit "down") "k" = -1 ∧
    rcGetJson (fun _ => .ok ()) (failingEngine Unit "down") "k" = none ∧
    rcLrange (failingEngine Unit "down") "k" 0 (-1) = [] ∧
    rcSmembers (failingEngine Unit "down") "k" = [] ∧
    rcHgetall (failingEngine Unit "down") "k" = [] ∧
    rcGetArticlesByTopic (failingEngine Unit "down") "technology" = [] ∧
    rcGetArticlesByRecency (failingEngine Unit "down") "1h" = [] ∧
    rcCacheArticlesByRecency (failingEngine Unit "down") "1h" [1, 2] 3600 = true ∧
    rcInvalidateTopicCache (failingEngine Unit "down") "technology" = false ∧
    rcGetNewsDigest (fun _ => .ok ()) (failingEngine Unit "down") "morning"
        "20250101_08" "20250101_07" = none := by
  have h := C5_kv_failure_neutral (failingEngine Unit "down") (fun _ => "")
    (fun _ => .ok ()) "k" "v" "f" "technology" "1h" "ch" "morning"
    "20250101_08" "20250101_07" "down" 60 3600 7 none 0 (-1) ["a"] [1, 2] ()
  refine ⟨h.1 rfl, h.2.1 rfl, h.2.2.2.2.2.2.1 rfl, h.2.2.2.2.2.2.2.2.1 rfl,
    ?_, h.2.2.2.2.2.2.2.2.2.2.2.2.2.2.1 rfl, ?_, ?_, ?_, ?_, ?_, ?_⟩
  · exact (C5_kv_failure_neutral (failingEngine Unit "down") (fun _ => "")
      (fun _ => .ok ()) "k" "v" "f" "technology" "1h" "ch" "morning"
      "20250101_08" "20250101_07" "down" 60 3600 7 none 0 (-1) ["a"] [1, 2]
      ()).2.2.2.2.2.2.2.2.2.2.2.2.1 rfl
  · exact h.2.2.2.2.2.2.2.2.2.2.2.2.2.2.2.2.2.1 rfl
  · exact h.2.2.2.2.2.2.2.2.2.2.2.2.2.2.2.2.2.2.2.2.1 rfl
  · exact h.2.2.2.2.2.2.2.2.2.2.2.2.2.2.2.2.2.2.2.2.2.1 rfl
  · exact h.2.2.2.2.2.2.2.2.2.2.2.2.2.2.2.2.2.2.2.2.2.2.1
  · exact h.2.2.2.2.2.2.2.2.2.2.2.2.2.2.2.2.2.2.2.2.2.2.2.1 rfl
  · exact h.2.2.2.2.2.2.2.2.2.2.2.2.2.2.2.2.2.2.2.2.2.2.2.2.2 rfl rfl

/-! ## Claim C8 -/

theorem pyMax_eq_none {f : ArticleR → ℚ} {l : List ArticleR} :
    pyMax f l = none ↔ l = [] := by
  cases l <;> simp [pyMax]

theorem length_filter_id_le_one (db : List ArticleR)
    (hnd : (db.map (fun a => a.id)).Nodup) (i : Nat) :
    (db.filter (fun a => a.id = i)).length ≤ 1 := by
  induction db with
  | nil => simp
  | cons a t ih =>
    simp only [List.map_cons, List.nodup_cons] at hnd
    by_cases ha : a.id = i
    · have ht : t.filter (fun a => a.id = i) = [] := by
        rw [List.filter_eq_nil_iff]
        intro x hx hxe
        refine hnd.1 (List.mem_map.mpr ⟨x, hx, ?_⟩)
        have hxi : x.id = i := by simpa using hxe
        omega
      simp [List.filter_cons, ha, ht]
    · simpa [List.filter_cons, ha] using ih hnd.2

theorem countHash_mono {l₁ l₂ : List ArticleR} (hs : l₁.Sublist l₂) (h : String) :
    countHash h l₁ ≤ countHash h l₂ :=
  (List.Sublist.filter _ hs).length_le

theorem wkCount_mono {l₁ l₂ : List ArticleR} (hs : l₁.Sublist l₂) (cutoff : Nat)
    (k : String) : wkCount cutoff k l₁ ≤ wkCount cutoff k l₂ :=
  (List.Sublist.filter _ (List.Sublist.filter _ hs)).length_le

theorem removeDuplicatesByHash_sublist (h : String) (db : List ArticleR) :
    (removeDuplicatesByHash h db).1.Sublist db := by
  by_cases hl : (sortByDiscoveredDesc (db.filter (fun a => a.content_hash = h))).length ≤ 1
  · simp only [removeDuplicatesByHash]
    rw [if_pos hl]
  · cases hm : pyMax selectBestScoreFn
        (sortByDiscoveredDesc (db.filter (fun a => a.content_hash = h))) with
    | none =>
      simp only [removeDuplicatesByHash]
      rw [if_neg hl, hm]
    | some best =>
      simp only [removeDuplicatesByHash]
      rw [if_neg hl, hm]
      exact List.filter_sublist db

theorem filter_keep_countHash_le_one (db : List ArticleR)
    (hnd : (db.map (fun a => a.id)).Nodup) (h : String) (bid : Nat) :
    countHash h (db.filter (fun a => ¬(a.content_hash = h ∧ a.id ≠ bid))) ≤ 1 := by
  have h1 : List.countP
      (fun a => decide (a.content_hash = h) &&
        decide (¬(a.content_hash = h ∧ a.id ≠ bid))) db
      ≤ List.countP (fun a => decide (a.id = bid)) db := by
    refine List.countP_mono_left ?_
    intro x hx hb
    simp only [Bool.and_eq_true, decide_eq_true_eq] at hb ⊢
    tauto
  have h2 : List.countP (fun a => decide (a.id = bid)) db
      = (db.filter (fun a => a.id = bid)).length := List.countP_eq_length_filter _ _
  unfold countHash
  rw [List.filter_filter, ← List.countP_eq_length_filter]
  exact le_trans h1 (h2 ▸ length_filter_id_le_one db hnd bid)

theorem countHash_removeDuplicatesByHash_self (h : String) (db : List ArticleR)
    (hnd : (db.map (fun a => a.id)).Nodup) :
    countHash h (removeDuplicatesByHash h db).1 ≤ 1 := by
  have hperm : (sortByDiscoveredDesc (db.filter (fun a => a.content_hash = h))).length
      = countHash h db := (List.mergeSort_perm _ _).length_eq
  by_cases hl : (sortByDiscoveredDesc (db.filter (fun a => a.content_hash = h))).length ≤ 1
  · simp only [removeDuplicatesByHash]
    rw [if_pos hl]
    exact hperm ▸ hl
  · cases hm : pyMax selectBestScoreFn
        (sortByDiscoveredDesc (db.filter (fun a => a.content_hash = h))) with
    | none =>
      exact absurd (by rw [pyMax_eq_none.mp hm]; simp) hl
    | some best =>
      simp only [removeDuplicatesByHash]
      rw [if_neg hl, hm]
      exact filter_keep_countHash_le_one db hnd h best.id

theorem dedupHash_foldl_fst (hs : List String) :
    ∀ (db : List ArticleR) (n : Nat),
      (hs.foldl (fun acc h =>
        let r := removeDuplicatesByHash h acc.1
        (r.1, acc.2 + r.2)) (db, n)).1
      = hs.foldl (fun d h => (removeDuplicatesByHash h d).1) db := by
  induction hs with
  | nil => intro db n; rfl
  | cons h0 rest ih =>
    intro db n
    simp only [List.foldl_cons]
    exact ih _ _

theorem dedupHash_foldl_sublist (hs : List String) :
    ∀ db : List ArticleR,
      (hs.foldl (fun d h => (removeDuplicatesByHash h d).1) db).Sublist db := by
  induction hs with
  | nil => intro db; exact List.Sublist.refl db
  | cons h0 rest ih =>
    intro db
    simp only [List.foldl_cons]
    exact (ih _).trans (removeDuplicatesByHash_sublist h0 db)

theorem dedupHash_foldl_count (hs : List String) :
    ∀ db : List ArticleR, (db.map (fun a => a.id)).Nodup →
      ∀ h ∈ hs,
        countHash h (hs.foldl (fun d h => (removeDuplicatesByHash h d).1) db) ≤ 1 := by
  induction hs with
  | nil => intro db _ h hh; exact absurd hh (List.not_mem_nil h)
  | cons h0 rest ih =>
    intro db hnd h hh
    simp only [List.foldl_cons]
    have hnd1 : (((removeDuplicatesByHash h0 db).1).map (fun a => a.id)).Nodup :=
      List.Nodup.sublist (List.Sublist.map _ (removeDuplicatesByHash_sublist h0 db)) hnd
    rcases List.mem_cons.mp hh with he | hr
    · subst he
      exact le_trans (countHash_mono (dedupHash_foldl_sublist rest _) h)
        (countHash_removeDuplicatesByHash_self h db hnd)
    · exact ih _ hnd1 h hr

theorem deduplicateByContentHash_fst (cutoff : Nat) (db : List ArticleR) :
    (deduplicateByContentHash cutoff db).1
      = (dupHashes cutoff db).foldl (fun d h => (removeDuplicatesByHash h d).1) db :=
  dedupHash_foldl_fst (dupHashes cutoff db) db 0

theorem dupHashes_after (cutoff : Nat) (db : List ArticleR)
    (hnd : (db.map (fun a => a.id)).Nodup) :
    dupHashes cutoff (deduplicateByContentHash cutoff db).1 = [] := by
  have hfold := deduplicateByContentHash_fst cutoff db
  have hsub : (deduplicateByContentHash cutoff db).1.Sublist db := by
    rw [hfold]; exact dedupHash_foldl_sublist _ db
  simp only [dupHashes]
  rw [List.filter_eq_nil_iff]
  intro h hmem
  simp only [decide_eq_true_eq]
  rw [not_lt]
  show countHash h ((deduplicateByContentHash cutoff db).1.filter (inWindow cutoff)) ≤ 1
  by_cases hdup : h ∈ dupHashes cutoff db
  · refine le_trans (countHash_mono (List.filter_sublist _) h) ?_
    rw [hfold]
    exact dedupHash_foldl_count (dupHashes cutoff db) db hnd h hdup
  · have hmem0 : h ∈ ((db.filter (inWindow cutoff)).map (fun a => a.content_hash)).dedup := by
      rw [List.mem_dedup]
      exact (List.Sublist.map _ (List.Sublist.filter _ hsub)).subset (List.mem_dedup.mp hmem)
    have hnp : ¬((db.filter (inWindow cutoff)).filter
        (fun a => a.content_hash = h)).length > 1 := by
      intro hgt
      apply hdup
      simp only [dupHashes]
      exact List.mem_filter.mpr ⟨hmem0, by simpa using hgt⟩
    refine le_trans (countHash_mono (List.Sublist.filter _ hsub) h) ?_
    exact not_lt.mp hnp

theorem removeTitleGroup_sublist (cutoff : Nat) (origDb : List ArticleR)
    (k : String) (db : List ArticleR) :
    (removeTitleGroup cutoff origDb k db).1.Sublist db := by
  by_cases hl : ((sortByDiscoveredDesc (origDb.filter (inWindow cutoff))).filter
      (fun a => titleKeyOf a = some k)).length ≤ 1
  · simp only [removeTitleGroup]
    rw [if_pos hl]
  · cases hm : pyMax selectBestScoreFn
        ((sortByDiscoveredDesc (origDb.filter (inWindow cutoff))).filter
          (fun a => titleKeyOf a = some k)) with
    | none =>
      simp only [removeTitleGroup]
      rw [if_neg hl, hm]
    | some best =>
      simp only [removeTitleGroup]
      rw [if_neg hl, hm]
      exact List.filter_sublist db

theorem filter_keep_wkCount_le_one (cutoff : Nat) (db : List ArticleR)
    (hnd : (db.map (fun a => a.id)).Nodup) (k : String) (bid : Nat) :
    wkCount cutoff k (db.filter
      (fun a => ¬(inWindow cutoff a = true ∧ titleKeyOf a = some k ∧ a.id ≠ bid))) ≤ 1 := by
  have h1 : List.countP
      (fun a => (decide (titleKeyOf a = some k) && inWindow cutoff a) &&
        decide (¬(inWindow cutoff a = true ∧ titleKeyOf a = some k ∧ a.id ≠ bid))) db
      ≤ List.countP (fun a => decide (a.id = bid)) db := by
    refine List.countP_mono_left ?_
    intro x hx hb
    simp only [Bool.and_eq_true, decide_eq_true_eq] at hb ⊢
    tauto
  have h2 : List.countP (fun a => decide (a.id = bid)) db
      = (db.filter (fun a => a.id = bid)).length := List.countP_eq_length_filter _ _
  unfold wkCount
  rw [List.filter_filter, List.filter_filter, ← List.countP_eq_length_filter]
  exact le_trans h1 (h2 ▸ length_filter_id_le_one db hnd bid)

theorem wkCount_removeTitleGroup_self (cutoff : Nat) (origDb : List ArticleR)
    (k : String) (db : List ArticleR) (hsub : db.Sublist origDb)
    (hnd : (db.map (fun a => a.id)).Nodup) :
    wkCount cutoff k (removeTitleGroup cutoff origDb k db).1 ≤ 1 := by
  have hperm : ((sortByDiscoveredDesc (origDb.filter (inWindow cutoff))).filter
      (fun a => titleKeyOf a = some k)).length = wkCount cutoff k origDb :=
    (List.Perm.filter _ (List.mergeSort_perm _ _)).length_eq
  by_cases hl : ((sortByDiscoveredDesc (origDb.filter (inWindow cutoff))).filter
      (fun a => titleKeyOf a = some k)).length ≤ 1
  · simp only [removeTitleGroup]
    rw [if_pos hl]
    exact le_trans (wkCount_mono hsub cutoff k) (hperm ▸ hl)
  · cases hm : pyMax selectBestScoreFn
        ((sortByDiscoveredDesc (origDb.filter (inWindow cutoff))).filter
          (fun a => titleKeyOf a = some k)) with
    | none =>
      exact absurd (by rw [pyMax_eq_none.mp hm]; simp) hl
    | some best =>
      simp only [removeTitleGroup]
      rw [if_neg hl, hm]
      exact filter_keep_wkCount_le_one cutoff db hnd k best.id

theorem dedupTitle_foldl_fst (cutoff : Nat) (origDb : List ArticleR)
    (ks : List String) :
    ∀ (db : List ArticleR) (n : Nat),
      (ks.foldl (fun acc k =>
        let r := removeTitleGroup cutoff origDb k acc.1
        (r.1, acc.2 + r.2)) (db, n)).1
      = ks.foldl (fun d k => (removeTitleGroup cutoff origDb k d).1) db := by
  induction ks with
  | nil => intro db n; rfl
  | cons k0 rest ih =>
    intro db n
    simp only [List.foldl_cons]
    exact ih _ _

theorem dedupTitle_foldl_sublist (cutoff : Nat) (origDb : List ArticleR)
    (ks : List String) :
    ∀ db : List ArticleR,
      (ks.foldl (fun d k => (removeTitleGroup cutoff origDb k d).1) db).Sublist db := by
  induction ks with
  | nil => intro db; exact List.Sublist.refl db
  | cons k0 rest ih =>
    intro db
    simp only [List.foldl_cons]
    exact (ih _).trans (removeTitleGroup_sublist cutoff origDb k0 db)

theorem dedupTitle_foldl_count (cutoff : Nat) (origDb : List ArticleR)
    (ks : List String) :
    ∀ db : List ArticleR, db.Sublist origDb → (db.map (fun a => a.id)).Nodup →
      ∀ k ∈ ks,
        wkCount cutoff k
          (ks.foldl (fun d k => (removeTitleGroup cutoff origDb k d).1) db) ≤ 1 := by
  induction ks with
  | nil => intro db _ _ k hk; exact absurd hk (List.not_mem_nil k)
  | cons k0 rest ih =>
    intro db hsub hnd k hk
    simp only [List.foldl_cons]
    have hsub1 : ((removeTitleGroup cutoff origDb k0 db).1).Sublist origDb :=
      (removeTitleGroup_sublist cutoff origDb k0 db).trans hsub
    have hnd1 : (((removeTitleGroup cutoff origDb k0 db).1).map (fun a => a.id)).Nodup :=
      List.Nodup.sublist (List.Sublist.map _ (removeTitleGroup_sublist cutoff origDb k0 db)) hnd
    rcases List.mem_cons.mp hk with he | hr
    · subst he
      exact le_trans (wkCount_mono (dedupTitle_foldl_sublist cutoff origDb rest _) cutoff k)
        (wkCount_removeTitleGroup_self cutoff origDb k db hsub hnd)
    · exact ih _ hsub1 hnd1 k hr

theorem deduplicateByTitleSimilarity_fst (cutoff : Nat) (db : List ArticleR) :
    (deduplicateByTitleSimilarity cutoff db).1
      = (titleDupKeys cutoff db).foldl
          (fun d k => (removeTitleGroup cutoff db k d).1) db :=
  dedupTitle_foldl_fst cutoff db (titleDupKeys cutoff db) db 0

theorem titleDupKeys_after (cutoff : Nat) (db : List ArticleR)
    (hnd : (db.map (fun a => a.id)).Nodup) :
    titleDupKeys cutoff (deduplicateByTitleSimilarity cutoff db).1 = [] := by
  have hfold := deduplicateByTitleSimilarity_fst cutoff db
  have hsub : (deduplicateByTitleSimilarity cutoff db).1.Sublist db := by
    rw [hfold]; exact dedupTitle_foldl_sublist cutoff db _ db
  simp only [titleDupKeys]
  rw [List.filter_eq_nil_iff]
  intro k hmem
  simp only [decide_eq_true_eq]
  rw [not_lt]
  have hlen : ((sortByDiscoveredDesc ((deduplicateByTitleSimilarity cutoff db).1.filter
      (inWindow cutoff))).filter (fun a => titleKeyOf a = some k)).length
      = wkCount cutoff k (deduplicateByTitleSimilarity cutoff db).1 :=
    (List.Perm.filter _ (List.mergeSort_perm _ _)).length_eq
  rw [hlen]
  by_cases hdup : k ∈ titleDupKeys cutoff db
  · rw [hfold]
    exact dedupTitle_foldl_count cutoff db (titleDupKeys cutoff db) db
      (List.Sublist.refl db) hnd k hdup
  · rcases List.mem_filterMap.mp (List.mem_dedup.mp hmem) with ⟨a, ha, hak⟩
    have ha1 : a ∈ (deduplicateByTitleSimilarity cutoff db).1.filter (inWindow cutoff) :=
      (List.mergeSort_perm _ _).mem_iff.mp ha
    have ha2 : a ∈ db.filter (inWindow cutoff) :=
      (List.Sublist.filter _ hsub).subset ha1
    have hmem0 : k ∈ ((sortByDiscoveredDesc (db.filter (inWindow cutoff))).filterMap
        titleKeyOf).dedup := by
      rw [List.mem_dedup]
      exact List.mem_filterMap.mpr ⟨a, (List.mergeSort_perm _ _).mem_iff.mpr ha2, hak⟩
    have hnp : ¬((sortByDiscoveredDesc (db.filter (inWindow cutoff))).filter
        (fun a => titleKeyOf a = some k)).length > 1 := by
      intro hgt
      apply hdup
      simp only [titleDupKeys]
      exact List.mem_filter.mpr ⟨hmem0, by simpa using hgt⟩
    have hlen0 : ((sortByDiscoveredDesc (db.filter (inWindow cutoff))).filter
        (fun a => titleKeyOf a = some k)).length = wkCount cutoff k db :=
      (List.Perm.filter _ (List.mergeSort_perm _ _)).length_eq
    refine le_trans (wkCount_mono hsub cutoff k) ?_
    rw [← hlen0]
    exact not_lt.mp hnp

/-- C8: both deduplication strategies are idempotent.  Rerunning the
hash strategy (or the title-similarity strategy) immediately on its own
output — over the same retention window and under the database invariant
that row ids are distinct — finds no duplicate groups, removes zero
articles on the second pass, and leaves the table unchanged. -/
theorem C8_dedup_idempotent (cutoff : Nat) (db : List ArticleR)
    (hnd : (db.map (fun a => a.id)).Nodup) :
    deduplicateByContentHash cutoff (deduplicateByContentHash cutoff db).1
      = ((deduplicateByContentHash cutoff db).1, 0) ∧
    deduplicateByTitleSimilarity cutoff (deduplicateByTitleSimilarity cutoff db).1
      = ((deduplicateByTitleSimilarity cutoff db).1, 0) := by
  constructor
  · have h0 := dupHashes_after cutoff db hnd
    have h1 : deduplicateByContentHash cutoff (deduplicateByContentHash cutoff db).1
        = (dupHashes cutoff (deduplicateByContentHash cutoff db).1).foldl
            (fun acc h =>
              let r := removeDuplicatesByHash h acc.1
              (r.1, acc.2 + r.2))
            ((deduplicateByContentHash cutoff db).1, 0) := rfl
    rw [h1, h0, List.foldl_nil]
  · have h0 := titleDupKeys_after cutoff db hnd
    have h1 : deduplicateByTitleSimilarity cutoff (deduplicateByTitleSimilarity cutoff db).1
        = (titleDupKeys cutoff (deduplicateByTitleSimilarity cutoff db).1).foldl
            (fun acc k =>
              let r := removeTitleGroup cutoff (deduplicateByTitleSimilarity cutoff db).1
                k acc.1
              (r.1, acc.2 + r.2))
            ((deduplicateByTitleSimilarity cutoff db).1, 0) := rfl
    rw [h1, h0, List.foldl_nil]

/-- Witness: the idempotence theorem instantiated at a concrete two-row
table whose rows share a content hash. -/
theorem C8_dedup_idempotent_witness :
    (([testArticle, testArticleDup].map (fun a => a.id)).Nodup) ∧
      (deduplicateByContentHash 0
          (deduplicateByContentHash 0 [testArticle, testArticleDup]).1
        = ((deduplicateByContentHash 0 [testArticle, testArticleDup]).1, 0) ∧
       deduplicateByTitleSimilarity 0
          (deduplicateByTitleSimilarity 0 [testArticle, testArticleDup]).1
        = ((deduplicateByTitleSimilarity 0 [testArticle, testArticleDup]).1, 0)) :=
  ⟨by decide, C8_dedup_idempotent 0 [testArticle, testArticleDup] (by decide)⟩

end NewsAgg
